import Mathlib

/-!
Verification of the ampere checkers engine: a shallow embedding of the
board model (`model/src/board.rs`), the move generator
(`model/src/possible_moves.rs`), move encoding (`model/src/moves.rs`),
the engine evaluation type (`engine/src/eval.rs`), the lazy selection
sort (`engine/src/lazysort.rs`), the transposition table
(`engine/src/transposition_table.rs`) and the engine facade
(`engine/src/engine.rs`).  Machine `u32` values are modelled as `Nat`
kept below `2 ^ 32`; `i16` evaluations are modelled as `Int` within the
`i16` range.
-/

/-! ### u32 primitives -/

def mask32 : Nat := 2 ^ 32 - 1

/-- Bitwise complement on 32-bit words (Rust `!x` for `x: u32`). -/
def u32not (x : Nat) : Nat := x ^^^ mask32

/-- Rust `u32::rotate_right` for a shift strictly between 0 and 32. -/
def rotr32 (x n : Nat) : Nat := ((x >>> n) ||| (x <<< (32 - n))) &&& mask32

/-- Rust `u32::rotate_left` for a shift strictly between 0 and 32. -/
def rotl32 (x n : Nat) : Nat := ((x <<< n) ||| (x >>> (32 - n))) &&& mask32

/-- Population count of the low 32 bits (Rust `u32::count_ones`). -/
def pc32 (x : Nat) : Nat := ((Finset.range 32).filter (fun i => x.testBit i)).card

theorem testBit_ge32 {x : Nat} (hx : x < 2 ^ 32) {i : Nat} (hi : 32 ≤ i) :
    x.testBit i = false :=
  Nat.testBit_lt_two_pow (lt_of_lt_of_le hx (Nat.pow_le_pow_right (by norm_num) hi))

theorem testBit_mask32 (i : Nat) : mask32.testBit i = decide (i < 32) :=
  Nat.testBit_two_pow_sub_one 32 i

theorem testBit_u32not {x : Nat} (hx : x < 2 ^ 32) {i : Nat} (hi : i < 32) :
    (u32not x).testBit i = !x.testBit i := by
  simp [u32not, Nat.testBit_xor, testBit_mask32, hi, Bool.xor_true]

theorem testBit_u32not_ge {x : Nat} (hx : x < 2 ^ 32) {i : Nat} (hi : 32 ≤ i) :
    (u32not x).testBit i = false := by
  simp [u32not, Nat.testBit_xor, testBit_mask32, Nat.not_lt.mpr hi,
    testBit_ge32 hx hi]

theorem u32not_lt {x : Nat} (hx : x < 2 ^ 32) : u32not x < 2 ^ 32 :=
  Nat.xor_lt_two_pow hx (by norm_num [mask32])

theorem testBit_rotr32 {x : Nat} (hx : x < 2 ^ 32) {n i : Nat}
    (hn0 : 0 < n) (hn : n < 32) (hi : i < 32) :
    (rotr32 x n).testBit i = x.testBit ((i + n) % 32) := by
  unfold rotr32
  rw [Nat.testBit_and, testBit_mask32]
  simp only [Nat.testBit_or, Nat.testBit_shiftRight, Nat.testBit_shiftLeft,
    decide_eq_true_eq, hi, decide_True, Bool.and_true]
  by_cases h : i + n < 32
  · have hmod : (i + n) % 32 = i + n := Nat.mod_eq_of_lt h
    have hsl : ¬ (32 - n ≤ i) := by omega
    simp [hmod, hsl, Nat.add_comm n i]
  · have hmod : (i + n) % 32 = i + n - 32 := by omega
    have hsr : x.testBit (n + i) = false := testBit_ge32 hx (by omega)
    have hsl : 32 - n ≤ i := by omega
    have harg : i - (32 - n) = i + n - 32 := by omega
    simp [hmod, hsr, hsl, harg]

theorem testBit_rotl32 {x : Nat} (hx : x < 2 ^ 32) {n i : Nat}
    (hn0 : 0 < n) (hn : n < 32) (hi : i < 32) :
    (rotl32 x n).testBit i = x.testBit ((i + (32 - n)) % 32) := by
  unfold rotl32
  rw [Nat.testBit_and, testBit_mask32]
  simp only [Nat.testBit_or, Nat.testBit_shiftRight, Nat.testBit_shiftLeft,
    decide_eq_true_eq, hi, decide_True, Bool.and_true]
  by_cases h : n ≤ i
  · have hmod : (i + (32 - n)) % 32 = i - n := by omega
    have hsr : x.testBit ((32 - n) + i) = false := testBit_ge32 hx (by omega)
    simp [hmod, hsr, h]
  · have hmod : (i + (32 - n)) % 32 = i + (32 - n) := by omega
    have hsl : ¬ (n ≤ i) := h
    simp [hmod, hsl, Nat.add_comm (32 - n) i]

/-! ### Board model (`model/src/board.rs`) -/

/-- The color of a piece (`model/src/color.rs`). -/
inductive PieceColor
  | Light
  | Dark
deriving DecidableEq, Repr

/-- Source: `PieceColor::flip`. -/
def PieceColor.flip : PieceColor → PieceColor
  | .Light => .Dark
  | .Dark => .Light

/-- A checkers position: three 32-bit masks plus the side to move
(`CheckersBitBoard` in `model/src/board.rs`). -/
structure CheckersBitBoard where
  pieces : Nat
  color : Nat
  kings : Nat
  turn : PieceColor
deriving DecidableEq, Repr

/-- Source: `CheckersBitBoard::starting_position`. -/
def CheckersBitBoard.starting_position : CheckersBitBoard :=
  ⟨0b11100111100111100111110111111011, 0b00001100001111001111001111000011,
    0, PieceColor.Dark⟩

/-- Source: `CheckersBitBoard::piece_at`. -/
def CheckersBitBoard.piece_at (b : CheckersBitBoard) (value : Nat) : Bool :=
  (b.pieces >>> value) &&& 1 == 1

/-- Source: `CheckersBitBoard::color_at_unchecked` (Dark iff the bit is set). -/
def CheckersBitBoard.color_at_unchecked (b : CheckersBitBoard) (value : Nat) : PieceColor :=
  if (b.color >>> value) &&& 1 != 0 then PieceColor.Dark else PieceColor.Light

/-- Source: `CheckersBitBoard::king_at_unchecked`. -/
def CheckersBitBoard.king_at_unchecked (b : CheckersBitBoard) (value : Nat) : Bool :=
  (b.kings >>> value) &&& 1 == 1

/-- Source: `CheckersBitBoard::flip_turn`. -/
def CheckersBitBoard.flip_turn (b : CheckersBitBoard) : CheckersBitBoard :=
  ⟨b.pieces, b.color, b.kings, b.turn.flip⟩

/-- Source: the `DARK_PROMOTION_MASK` constant in `move_piece_to_unchecked`. -/
def DARK_PROMOTION_MASK : Nat := 0b10000010000000000000100000100000

/-- Source: the `LIGHT_PROMOTION_MASK` constant in `move_piece_to_unchecked`. -/
def LIGHT_PROMOTION_MASK : Nat := 0b1000001000001000001

/-- Source: `CheckersBitBoard::move_piece_to_unchecked`. -/
def CheckersBitBoard.move_piece_to_unchecked (b : CheckersBitBoard)
    (start dest : Nat) : CheckersBitBoard :=
  let pieces := (b.pieces &&& u32not (1 <<< start)) ||| (1 <<< dest)
  let color := (b.color &&& u32not (1 <<< dest)) ||| (((b.color >>> start) &&& 1) <<< dest)
  let kings := (b.kings &&& u32not (1 <<< dest))
    ||| (((b.kings >>> start) &&& 1) <<< dest)
    ||| (color &&& DARK_PROMOTION_MASK)
    ||| (u32not color &&& LIGHT_PROMOTION_MASK)
  ⟨pieces, color, kings, b.turn.flip⟩

/-- Source: `move_piece_forward_unchecked` (`(value + amount) & 31`). -/
def CheckersBitBoard.move_piece_forward_unchecked (b : CheckersBitBoard)
    (value amount : Nat) : CheckersBitBoard :=
  b.move_piece_to_unchecked value ((value + amount) % 32)

/-- Source: `move_piece_backward_unchecked` (`value.wrapping_sub(amount) & 31`,
with `value < 32` and `amount ≤ 32`, equals `(value + 32 - amount) % 32`). -/
def CheckersBitBoard.move_piece_backward_unchecked (b : CheckersBitBoard)
    (value amount : Nat) : CheckersBitBoard :=
  b.move_piece_to_unchecked value ((value + 32 - amount) % 32)

/-- Source: `move_piece_forward_left_unchecked`. -/
def CheckersBitBoard.move_piece_forward_left_unchecked
    (b : CheckersBitBoard) (value : Nat) : CheckersBitBoard :=
  b.move_piece_forward_unchecked value 7

/-- Source: `move_piece_forward_right_unchecked`. -/
def CheckersBitBoard.move_piece_forward_right_unchecked
    (b : CheckersBitBoard) (value : Nat) : CheckersBitBoard :=
  b.move_piece_forward_unchecked value 1

/-- Source: `move_piece_backward_left_unchecked`. -/
def CheckersBitBoard.move_piece_backward_left_unchecked
    (b : CheckersBitBoard) (value : Nat) : CheckersBitBoard :=
  b.move_piece_backward_unchecked value 1

/-- Source: `move_piece_backward_right_unchecked`. -/
def CheckersBitBoard.move_piece_backward_right_unchecked
    (b : CheckersBitBoard) (value : Nat) : CheckersBitBoard :=
  b.move_piece_backward_unchecked value 7

/-- Source: `CheckersBitBoard::clear_piece`. -/
def CheckersBitBoard.clear_piece (b : CheckersBitBoard) (value : Nat) : CheckersBitBoard :=
  ⟨b.pieces &&& u32not (1 <<< value), b.color, b.kings, b.turn⟩

/-! ### Move generator (`model/src/possible_moves.rs`) -/

/-- Four direction bitsets; the `can_jump` flag lives in bit 1 of
`backward_right_movers` (source struct `PossibleMoves`). -/
structure PossibleMoves where
  forward_left_movers : Nat
  forward_right_movers : Nat
  backward_left_movers : Nat
  backward_right_movers : Nat
deriving DecidableEq, Repr

/-- Source: `SLIDE` `FORWARD_LEFT_MASK` in `slides_dark` / `slides_light`. -/
def SLIDE_FL_MASK : Nat := 0b01111001111110111111001111011011

/-- Source: slide `FORWARD_RIGHT_MASK`. -/
def SLIDE_FR_MASK : Nat := 0b01111101111111011111010111011101

/-- Source: slide `BACKWARD_LEFT_MASK`. -/
def SLIDE_BL_MASK : Nat := 0b11111011111110111110101110111010

/-- Source: slide `BACKWARD_RIGHT_MASK`. -/
def SLIDE_BR_MASK : Nat := 0b11111001111110011110110110111100

/-- Source: jump `FORWARD_LEFT_MASK` in `jumps_dark` / `jumps_light` / `has_jumps_*`. -/
def JUMP_FL_MASK : Nat := 0b00110000111100111111001111000011

/-- Source: jump `FORWARD_RIGHT_MASK`. -/
def JUMP_FR_MASK : Nat := 0b00111100111111001111000011001100

/-- Source: jump `BACKWARD_LEFT_MASK`. -/
def JUMP_BL_MASK : Nat := 0b11110011111100111100001100110000

/-- Source: jump `BACKWARD_RIGHT_MASK`. -/
def JUMP_BR_MASK : Nat := 0b11111100111100001100110000111100

/-- The `not_occupied` local of the generator kernels. -/
def CheckersBitBoard.not_occupied (b : CheckersBitBoard) : Nat := u32not b.pieces

/-- The `friendly_pieces` local for Dark (also `enemy_pieces` for Light). -/
def CheckersBitBoard.dark_pieces (b : CheckersBitBoard) : Nat := b.pieces &&& b.color

/-- The `friendly_pieces` local for Light (also `enemy_pieces` for Dark). -/
def CheckersBitBoard.light_pieces (b : CheckersBitBoard) : Nat :=
  b.pieces &&& u32not b.color

/-- The `friendly_kings` local for Dark. -/
def CheckersBitBoard.dark_kings (b : CheckersBitBoard) : Nat := b.dark_pieces &&& b.kings

/-- The `friendly_kings` local for Light. -/
def CheckersBitBoard.light_kings (b : CheckersBitBoard) : Nat := b.light_pieces &&& b.kings

/-- `forward_left_movers` of `slides_dark`. -/
def slidesDarkFL (b : CheckersBitBoard) : Nat :=
  rotr32 b.not_occupied 7 &&& b.dark_pieces &&& SLIDE_FL_MASK

/-- `forward_right_movers` of `slides_dark`. -/
def slidesDarkFR (b : CheckersBitBoard) : Nat :=
  rotr32 b.not_occupied 1 &&& b.dark_pieces &&& SLIDE_FR_MASK

/-- `backward_left_movers` of `slides_dark` (zero without friendly kings). -/
def slidesDarkBL (b : CheckersBitBoard) : Nat :=
  if 0 < b.dark_kings then rotl32 b.not_occupied 1 &&& b.dark_kings &&& SLIDE_BL_MASK else 0

/-- `backward_right_movers` of `slides_dark` (zero without friendly kings). -/
def slidesDarkBR (b : CheckersBitBoard) : Nat :=
  if 0 < b.dark_kings then rotl32 b.not_occupied 7 &&& b.dark_kings &&& SLIDE_BR_MASK else 0

/-- Source: `PossibleMoves::slides_dark`. -/
def PossibleMoves.slides_dark (board : CheckersBitBoard) : PossibleMoves :=
  ⟨slidesDarkFL board, slidesDarkFR board, slidesDarkBL board, slidesDarkBR board⟩

/-- `backward_left_movers` of `slides_light`. -/
def slidesLightBL (b : CheckersBitBoard) : Nat :=
  rotl32 b.not_occupied 1 &&& b.light_pieces &&& SLIDE_BL_MASK

/-- `backward_right_movers` of `slides_light`. -/
def slidesLightBR (b : CheckersBitBoard) : Nat :=
  rotl32 b.not_occupied 7 &&& b.light_pieces &&& SLIDE_BR_MASK

/-- `forward_left_movers` of `slides_light` (zero without friendly kings). -/
def slidesLightFL (b : CheckersBitBoard) : Nat :=
  if 0 < b.light_kings then rotr32 b.not_occupied 7 &&& b.light_kings &&& SLIDE_FL_MASK else 0

/-- `forward_right_movers` of `slides_light` (zero without friendly kings). -/
def slidesLightFR (b : CheckersBitBoard) : Nat :=
  if 0 < b.light_kings then rotr32 b.not_occupied 1 &&& b.light_kings &&& SLIDE_FR_MASK else 0

/-- Source: `PossibleMoves::slides_light`. -/
def PossibleMoves.slides_light (board : CheckersBitBoard) : PossibleMoves :=
  ⟨slidesLightFL board, slidesLightFR board, slidesLightBL board, slidesLightBR board⟩

/-- `forward_left_movers` of `jumps_dark`. -/
def jumpsDarkFL (b : CheckersBitBoard) : Nat :=
  rotr32 b.not_occupied 14 &&& rotr32 b.light_pieces 7 &&& b.dark_pieces &&& JUMP_FL_MASK

/-- `forward_right_movers` of `jumps_dark`. -/
def jumpsDarkFR (b : CheckersBitBoard) : Nat :=
  rotr32 b.not_occupied 2 &&& rotr32 b.light_pieces 1 &&& b.dark_pieces &&& JUMP_FR_MASK

/-- `backward_left_movers` of `jumps_dark` (zero without friendly kings). -/
def jumpsDarkBL (b : CheckersBitBoard) : Nat :=
  if 0 < b.dark_kings then
    rotl32 b.not_occupied 2 &&& rotl32 b.light_pieces 1 &&& b.dark_kings &&& JUMP_BL_MASK
  else 0

/-- `backward_right_movers` of `jumps_dark` before the flag (zero without
friendly kings). -/
def jumpsDarkBR (b : CheckersBitBoard) : Nat :=
  if 0 < b.dark_kings then
    rotl32 b.not_occupied 14 &&& rotl32 b.light_pieces 7 &&& b.dark_kings &&& JUMP_BR_MASK
  else 0

/-- The `can_jump` flag of `jumps_dark` (bit 1). -/
def jumpsDarkFlag (b : CheckersBitBoard) : Nat :=
  if jumpsDarkFL b ≠ 0 ∨ jumpsDarkFR b ≠ 0 ∨ jumpsDarkBL b ≠ 0 ∨ jumpsDarkBR b ≠ 0 then 2
  else 0

/-- Source: `PossibleMoves::jumps_dark` (the `can_jump` flag is stored in
bit 1 of `backward_right_movers`). -/
def PossibleMoves.jumps_dark (board : CheckersBitBoard) : PossibleMoves :=
  ⟨jumpsDarkFL board, jumpsDarkFR board, jumpsDarkBL board,
    jumpsDarkBR board ||| jumpsDarkFlag board⟩

/-- `backward_left_movers` of `jumps_light`. -/
def jumpsLightBL (b : CheckersBitBoard) : Nat :=
  rotl32 b.not_occupied 2 &&& rotl32 b.dark_pieces 1 &&& b.light_pieces &&& JUMP_BL_MASK

/-- `backward_right_movers` of `jumps_light`. -/
def jumpsLightBR (b : CheckersBitBoard) : Nat :=
  rotl32 b.not_occupied 14 &&& rotl32 b.dark_pieces 7 &&& b.light_pieces &&& JUMP_BR_MASK

/-- `forward_left_movers` of `jumps_light` (zero without friendly kings). -/
def jumpsLightFL (b : CheckersBitBoard) : Nat :=
  if 0 < b.light_kings then
    rotr32 b.not_occupied 14 &&& rotr32 b.dark_pieces 7 &&& b.light_kings &&& JUMP_FL_MASK
  else 0

/-- `forward_right_movers` of `jumps_light` (zero without friendly kings). -/
def jumpsLightFR (b : CheckersBitBoard) : Nat :=
  if 0 < b.light_kings then
    rotr32 b.not_occupied 2 &&& rotr32 b.dark_pieces 1 &&& b.light_kings &&& JUMP_FR_MASK
  else 0

/-- The `can_jump` flag of `jumps_light` (bit 1). -/
def jumpsLightFlag (b : CheckersBitBoard) : Nat :=
  if jumpsLightFL b ≠ 0 ∨ jumpsLightFR b ≠ 0 ∨ jumpsLightBL b ≠ 0 ∨ jumpsLightBR b ≠ 0 then 2
  else 0

/-- Source: `PossibleMoves::jumps_light`. -/
def PossibleMoves.jumps_light (board : CheckersBitBoard) : PossibleMoves :=
  ⟨jumpsLightFL board, jumpsLightFR board, jumpsLightBL board,
    jumpsLightBR board ||| jumpsLightFlag board⟩

/-- The `forward_spaces` local of `has_jumps_dark` / `has_jumps_at_dark`. -/
def darkJumpSpacesFwd (b : CheckersBitBoard) : Nat :=
  (rotr32 b.not_occupied 14 &&& rotr32 b.light_pieces 7 &&& JUMP_FL_MASK) |||
    (rotr32 b.not_occupied 2 &&& rotr32 b.light_pieces 1 &&& JUMP_FR_MASK)

/-- The backward spaces local of `has_jumps_dark` / `has_jumps_at_dark`. -/
def darkJumpSpacesBwd (b : CheckersBitBoard) : Nat :=
  (rotl32 b.not_occupied 2 &&& rotl32 b.light_pieces 1 &&& JUMP_BL_MASK) |||
    (rotl32 b.not_occupied 14 &&& rotl32 b.light_pieces 7 &&& JUMP_BR_MASK)

/-- The backward spaces local of `has_jumps_light` / `has_jumps_at_light`. -/
def lightJumpSpacesBwd (b : CheckersBitBoard) : Nat :=
  (rotl32 b.not_occupied 2 &&& rotl32 b.dark_pieces 1 &&& JUMP_BL_MASK) |||
    (rotl32 b.not_occupied 14 &&& rotl32 b.dark_pieces 7 &&& JUMP_BR_MASK)

/-- The `forward_spaces` local of `has_jumps_light` / `has_jumps_at_light`. -/
def lightJumpSpacesFwd (b : CheckersBitBoard) : Nat :=
  (rotr32 b.not_occupied 14 &&& rotr32 b.dark_pieces 7 &&& JUMP_FL_MASK) |||
    (rotr32 b.not_occupied 2 &&& rotr32 b.dark_pieces 1 &&& JUMP_FR_MASK)

/-- Source: `PossibleMoves::has_jumps_dark`. -/
def PossibleMoves.has_jumps_dark (board : CheckersBitBoard) : Bool :=
  if 0 < board.kings then
    board.dark_pieces &&&
      (darkJumpSpacesFwd board ||| (board.kings &&& darkJumpSpacesBwd board)) != 0
  else
    board.dark_pieces &&& darkJumpSpacesFwd board != 0

/-- Source: `PossibleMoves::has_jumps_light`. -/
def PossibleMoves.has_jumps_light (board : CheckersBitBoard) : Bool :=
  if 0 < board.kings then
    board.light_pieces &&&
      ((board.kings &&& lightJumpSpacesFwd board) ||| lightJumpSpacesBwd board) != 0
  else
    board.light_pieces &&& lightJumpSpacesBwd board != 0

/-- Source: `PossibleMoves::has_jumps`. -/
def PossibleMoves.has_jumps (board : CheckersBitBoard) : Bool :=
  match board.turn with
  | PieceColor.Light => PossibleMoves.has_jumps_light board
  | PieceColor.Dark => PossibleMoves.has_jumps_dark board

/-- Source: `PossibleMoves::has_jumps_at_dark`. -/
def PossibleMoves.has_jumps_at_dark (board : CheckersBitBoard) (value : Nat) : Bool :=
  if 0 < board.kings then
    ((board.dark_pieces &&&
        (darkJumpSpacesFwd board ||| (board.kings &&& darkJumpSpacesBwd board))) >>> value)
      &&& 1 != 0
  else
    ((board.dark_pieces &&& darkJumpSpacesFwd board) >>> value) &&& 1 != 0

/-- Source: `PossibleMoves::has_jumps_at_light`. -/
def PossibleMoves.has_jumps_at_light (board : CheckersBitBoard) (value : Nat) : Bool :=
  if 0 < board.kings then
    ((board.light_pieces &&&
        ((board.kings &&& lightJumpSpacesFwd board) ||| lightJumpSpacesBwd board)) >>> value)
      &&& 1 != 0
  else
    ((board.light_pieces &&& lightJumpSpacesBwd board) >>> value) &&& 1 != 0

/-- Source: `PossibleMoves::has_jumps_at`. -/
def PossibleMoves.has_jumps_at (board : CheckersBitBoard) (value : Nat) : Bool :=
  match board.turn with
  | PieceColor.Light => PossibleMoves.has_jumps_at_light board value
  | PieceColor.Dark => PossibleMoves.has_jumps_at_dark board value

/-- Source: `PossibleMoves::is_empty` (masking away the `can_jump` flag bit). -/
def PossibleMoves.is_empty (p : PossibleMoves) : Bool :=
  (p.backward_left_movers ||| p.forward_left_movers ||| p.forward_right_movers |||
    (p.backward_right_movers &&& 4294967293)) == 0

/-- Source: `PossibleMoves::can_jump`. -/
def PossibleMoves.can_jump (p : PossibleMoves) : Bool :=
  (p.backward_right_movers &&& 2) != 0

/-- Source: `PossibleMoves::dark_moves`. -/
def PossibleMoves.dark_moves (board : CheckersBitBoard) : PossibleMoves :=
  let jumps := PossibleMoves.jumps_dark board
  if jumps.is_empty then PossibleMoves.slides_dark board else jumps

/-- Source: `PossibleMoves::light_moves`. -/
def PossibleMoves.light_moves (board : CheckersBitBoard) : PossibleMoves :=
  let jumps := PossibleMoves.jumps_light board
  if jumps.is_empty then PossibleMoves.slides_light board else jumps

/-- Source: `PossibleMoves::moves`. -/
def PossibleMoves.moves (board : CheckersBitBoard) : PossibleMoves :=
  match board.turn with
  | PieceColor.Dark => PossibleMoves.dark_moves board
  | PieceColor.Light => PossibleMoves.light_moves board

/-! ### Move encoding (`model/src/moves.rs`) -/

/-- Source: enum `MoveDirection`. -/
inductive MoveDirection
  | ForwardLeft
  | ForwardRight
  | BackwardLeft
  | BackwardRight
deriving DecidableEq, Repr

/-- The `repr(C)` discriminant of a `MoveDirection`. -/
def MoveDirection.toNat : MoveDirection → Nat
  | .ForwardLeft => 0
  | .ForwardRight => 1
  | .BackwardLeft => 2
  | .BackwardRight => 3

/-- A move packed in one byte: `start<<3 | dir<<1 | jump` (source struct `Move`). -/
abbrev Move : Type := Nat

/-- Source: `Move::new` (`((start as u8) << 3) | ((direction as u8) << 1) | jump as u8`). -/
def Move.new (start : Nat) (direction : MoveDirection) (jump : Bool) : Move :=
  (((start % 256) <<< 3) % 256) ||| (direction.toNat <<< 1) ||| (if jump then 1 else 0)

/-- Source: `Move::start`. -/
def Move.start (m : Move) : Nat := (m >>> 3) &&& 0b11111

/-- Source: `Move::direction`. -/
def Move.direction (m : Move) : MoveDirection :=
  match (m >>> 1) &&& 0b11 with
  | 0 => MoveDirection.ForwardLeft
  | 1 => MoveDirection.ForwardRight
  | 2 => MoveDirection.BackwardLeft
  | _ => MoveDirection.BackwardRight

/-- Source: `Move::is_jump`. -/
def Move.is_jump (m : Move) : Bool := m &&& 1 == 1

/-! ### Jump application (`model/src/board.rs`) -/

/-- Source: the forward `KING_MASK` in `jump_piece_forward_left_unchecked` and
`jump_piece_forward_right_unchecked`. -/
def JUMP_KING_MASK_FWD : Nat := 0b01000001000000000000010000010000

/-- Source: the backward `KING_MASK` in `jump_piece_backward_left_unchecked` and
`jump_piece_backward_right_unchecked`. -/
def JUMP_KING_MASK_BWD : Nat := 0b00000000000010000010000010000010

/-- Source: `CheckersBitBoard::jump_piece_forward_left_unchecked`. -/
def CheckersBitBoard.jump_piece_forward_left_unchecked
    (b : CheckersBitBoard) (value : Nat) : CheckersBitBoard :=
  let not_king := !b.king_at_unchecked value
  let board := (b.move_piece_forward_unchecked value 14).clear_piece ((value + 7) % 32)
  if PossibleMoves.has_jumps board.flip_turn ∧ not_king ∧
      ((1 <<< value) &&& JUMP_KING_MASK_FWD) = 0 then
    board.flip_turn
  else
    board

/-- Source: `CheckersBitBoard::jump_piece_forward_right_unchecked`. -/
def CheckersBitBoard.jump_piece_forward_right_unchecked
    (b : CheckersBitBoard) (value : Nat) : CheckersBitBoard :=
  let not_king := !b.king_at_unchecked value
  let board := (b.move_piece_forward_unchecked value 2).clear_piece ((value + 1) % 32)
  if PossibleMoves.has_jumps board.flip_turn ∧ not_king ∧
      ((1 <<< value) &&& JUMP_KING_MASK_FWD) = 0 then
    board.flip_turn
  else
    board

/-- Source: `CheckersBitBoard::jump_piece_backward_left_unchecked`. -/
def CheckersBitBoard.jump_piece_backward_left_unchecked
    (b : CheckersBitBoard) (value : Nat) : CheckersBitBoard :=
  let not_king := !b.king_at_unchecked value
  let board := (b.move_piece_backward_unchecked value 2).clear_piece ((value + 32 - 1) % 32)
  if PossibleMoves.has_jumps board.flip_turn ∧ not_king ∧
      ((1 <<< value) &&& JUMP_KING_MASK_BWD) = 0 then
    board.flip_turn
  else
    board

/-- Source: `CheckersBitBoard::jump_piece_backward_right_unchecked`. -/
def CheckersBitBoard.jump_piece_backward_right_unchecked
    (b : CheckersBitBoard) (value : Nat) : CheckersBitBoard :=
  let not_king := !b.king_at_unchecked value
  let board := (b.move_piece_backward_unchecked value 14).clear_piece ((value + 32 - 7) % 32)
  if PossibleMoves.has_jumps board.flip_turn ∧ not_king ∧
      ((1 <<< value) &&& JUMP_KING_MASK_BWD) = 0 then
    board.flip_turn
  else
    board

/-- Source: `Move::apply_to`. -/
def Move.apply_to (m : Move) (board : CheckersBitBoard) : CheckersBitBoard :=
  match m.is_jump with
  | false =>
    match m.direction with
    | .ForwardLeft => board.move_piece_forward_left_unchecked m.start
    | .ForwardRight => board.move_piece_forward_right_unchecked m.start
    | .BackwardLeft => board.move_piece_backward_left_unchecked m.start
    | .BackwardRight => board.move_piece_backward_right_unchecked m.start
  | true =>
    match m.direction with
    | .ForwardLeft => board.jump_piece_forward_left_unchecked m.start
    | .ForwardRight => board.jump_piece_forward_right_unchecked m.start
    | .BackwardLeft => board.jump_piece_backward_left_unchecked m.start
    | .BackwardRight => board.jump_piece_backward_right_unchecked m.start

/-! ### Iteration (`PossibleMovesIter`, `model/src/possible_moves.rs`)

`into_iter` fills a buffer with one conditional write per (direction, square)
pair, in a fixed order of square constants.  The written sequence is modelled
as a list: for each direction the squares appear in the source's order, and a
move is appended exactly when its bit is set in the direction mask. -/

/-- Squares probed by `add_jump_forward_left::<SQ>` in `into_iter`, in order. -/
def jumpFLSquares : List Nat := [0, 1, 6, 7, 8, 9, 12, 13, 14, 15, 16, 17, 20, 21, 22, 23, 28, 29]

/-- Squares probed by `add_jump_forward_right::<SQ>` in `into_iter`, in order. -/
def jumpFRSquares : List Nat := [2, 3, 6, 7, 12, 13, 14, 15, 18, 19, 20, 21, 22, 23, 26, 27, 28, 29]

/-- Squares probed by `add_jump_backward_left::<SQ>` in `into_iter`, in order. -/
def jumpBLSquares : List Nat := [4, 5, 8, 9, 14, 15, 16, 17, 20, 21, 22, 23, 24, 25, 28, 29, 30, 31]

/-- Squares probed by `add_jump_backward_right::<SQ>` in `into_iter`, in order. -/
def jumpBRSquares : List Nat := [2, 3, 4, 5, 10, 11, 14, 15, 20, 21, 22, 23, 26, 27, 28, 29, 30, 31]

/-- Squares probed by `add_slide_forward_left::<SQ>` in `into_iter`, in order. -/
def slideFLSquares : List Nat :=
  [0, 1, 3, 4, 6, 7, 8, 9, 12, 13, 14, 15, 16, 17, 19, 20, 21, 22, 23, 24, 27, 28, 29, 30]

/-- Squares probed by `add_slide_forward_right::<SQ>` in `into_iter`, in order. -/
def slideFRSquares : List Nat :=
  [0, 2, 3, 4, 6, 7, 8, 10, 12, 13, 14, 15, 16, 18, 19, 20, 21, 22, 23, 24, 26, 27, 28, 29, 30]

/-- Squares probed by `add_slide_backward_left::<SQ>` in `into_iter`, in order. -/
def slideBLSquares : List Nat :=
  [1, 3, 4, 5, 7, 8, 9, 11, 13, 14, 15, 16, 17, 19, 20, 21, 22, 23, 24, 25, 27, 28, 29, 30, 31]

/-- Squares probed by `add_slide_backward_right::<SQ>` in `into_iter`, in order. -/
def slideBRSquares : List Nat :=
  [2, 3, 4, 5, 7, 8, 10, 11, 13, 14, 15, 16, 19, 20, 21, 22, 23, 24, 26, 27, 28, 29, 30, 31]

/-- The moves appended for one direction: each probed square whose bit is set
in `field` contributes one encoded move (the `add_*` helpers). -/
def addMoves (field : Nat) (squares : List Nat) (direction : MoveDirection)
    (jump : Bool) : List Move :=
  (squares.filter (fun sq => (field >>> sq) &&& 1 == 1)).map
    (fun sq => Move.new sq direction jump)

/-- The full sequence written by `PossibleMoves::into_iter`, in order. -/
def PossibleMoves.toList (p : PossibleMoves) : List Move :=
  if p.can_jump then
    addMoves p.forward_left_movers jumpFLSquares MoveDirection.ForwardLeft true ++
    addMoves p.forward_right_movers jumpFRSquares MoveDirection.ForwardRight true ++
    addMoves p.backward_left_movers jumpBLSquares MoveDirection.BackwardLeft true ++
    addMoves p.backward_right_movers jumpBRSquares MoveDirection.BackwardRight true
  else
    addMoves p.forward_left_movers slideFLSquares MoveDirection.ForwardLeft false ++
    addMoves p.forward_right_movers slideFRSquares MoveDirection.ForwardRight false ++
    addMoves p.backward_left_movers slideBLSquares MoveDirection.BackwardLeft false ++
    addMoves p.backward_right_movers slideBRSquares MoveDirection.BackwardRight false

/-- The list of moves generated for a board: `PossibleMoves::moves(board)`
iterated in the source's order. -/
def movesList (board : CheckersBitBoard) : List Move :=
  (PossibleMoves.moves board).toList

/-- Source: `PossibleMoves::contains`. -/
def PossibleMoves.contains (p : PossibleMoves) (checker_move : Move) : Bool :=
  if checker_move.is_jump != p.can_jump then
    false
  else
    let bits := match checker_move.direction with
      | MoveDirection.ForwardLeft => p.forward_left_movers
      | MoveDirection.ForwardRight => p.forward_right_movers
      | MoveDirection.BackwardLeft => p.backward_left_movers
      | MoveDirection.BackwardRight => p.backward_right_movers
    (bits >>> checker_move.start) &&& 1 == 1

/-! ### Well-formedness -/

/-- A board's three masks fit in 32 bits. -/
def CheckersBitBoard.wf (b : CheckersBitBoard) : Prop :=
  b.pieces < 2 ^ 32 ∧ b.color < 2 ^ 32 ∧ b.kings < 2 ^ 32

instance (b : CheckersBitBoard) : Decidable b.wf := by
  unfold CheckersBitBoard.wf; infer_instance

/-- A well-formed board with at most 12 pieces of each color. -/
def CheckersBitBoard.wf12 (b : CheckersBitBoard) : Prop :=
  b.wf ∧ pc32 (b.pieces &&& b.color) ≤ 12 ∧ pc32 (b.pieces &&& u32not b.color) ≤ 12

instance (b : CheckersBitBoard) : Decidable b.wf12 := by
  unfold CheckersBitBoard.wf12; infer_instance

/-! ### Evaluation (`engine/src/eval.rs`)

The wrapped `i16` is modelled as an `Int`; theorems restrict to the
`i16` range where it matters. -/

abbrev Evaluation : Type := Int

/-- Source: `Evaluation::NULL_MAX` (`i16::MAX`). -/
def Evaluation.NULL_MAX : Evaluation := 32767

/-- Source: `Evaluation::NULL_MIN` (`i16::MIN + 1`). -/
def Evaluation.NULL_MIN : Evaluation := -32767

/-- Source: `Evaluation::WIN` (`i16::MAX - 1`). -/
def Evaluation.WIN : Evaluation := 32766

/-- Source: `Evaluation::DRAW`. -/
def Evaluation.DRAW : Evaluation := 0

/-- Source: `Evaluation::LOSS` (`i16::MIN + 2`). -/
def Evaluation.LOSS : Evaluation := -32766

/-- Source: `Evaluation::FORCE_WIN_THRESHOLD` (`0x3FFF`). -/
def Evaluation.FORCE_WIN_THRESHOLD : Int := 0x3FFF

/-- Source: `Evaluation::is_force_win`. -/
def Evaluation.is_force_win (e : Evaluation) : Bool :=
  decide (Evaluation.FORCE_WIN_THRESHOLD < e)

/-- Source: `Evaluation::is_force_loss`. -/
def Evaluation.is_force_loss (e : Evaluation) : Bool :=
  decide (e < -Evaluation.FORCE_WIN_THRESHOLD)

/-- Source: `Evaluation::is_force_sequence`. -/
def Evaluation.is_force_sequence (e : Evaluation) : Bool :=
  e.is_force_win || e.is_force_loss

/-- Source: `Evaluation::force_sequence_length`; the `as u8` cast of the
`i16` distance keeps the low 8 bits of the two's complement, i.e. the
Euclidean remainder modulo 256. -/
def Evaluation.force_sequence_length (e : Evaluation) : Option Nat :=
  if e = Evaluation.NULL_MAX ∨ e = Evaluation.NULL_MIN then none
  else if e.is_force_win then some ((Evaluation.WIN - e) % 256).toNat
  else if e.is_force_loss then some ((e - Evaluation.LOSS) % 256).toNat
  else none

/-- Source: `Evaluation::increment`. -/
def Evaluation.increment (e : Evaluation) : Evaluation :=
  if e.is_force_win then e - 1
  else if e.is_force_loss then e + 1
  else e

/-! ### LazySort (`engine/src/lazysort.rs`) -/

/-- Source: struct `LazySort` (the `ArrayVec` collection is a list, the
key function `sort_by`, and the `sorted` watermark). -/
structure LazySort (T R : Type) where
  collection : List T
  sorted : Nat
  sort_by : T → R

/-- Swap two positions of a list (`ArrayVec::swap`). -/
def listSwap {T : Type} (l : List T) (i j : Nat) : List T :=
  match l.get? i, l.get? j with
  | some a, some b => (l.set i b).set j a
  | _, _ => l

/-- Source: `LazySort::sort` — one selection pass for `index`.  The source
initialises `min` to `None` and only compares when `min` is already
`Some`, so the fold is modelled exactly: the accumulator starts at
`(none, none)` and is only updated when its first component is `some`. -/
def LazySort.sortAt {T R : Type} [LinearOrder R] (ls : LazySort T R) (index : Nat) :
    LazySort T R :=
  let step := fun (acc : Option R × Option Nat) (i : Nat) =>
    match acc.1 with
    | some m =>
      match ls.collection.get? i with
      | some x =>
        let res := ls.sort_by x
        if res < m then (some res, some i) else acc
      | none => acc
    | none => acc
  let fin := (List.range' index (ls.collection.length - index)).foldl step (none, none)
  match fin.2 with
  | some min_index => { ls with collection := listSwap ls.collection index min_index }
  | none => ls

/-- Source: `LazySort::sort_between` (`for i in start..=end`). -/
def LazySort.sort_between {T R : Type} [LinearOrder R] (ls : LazySort T R)
    (start stop : Nat) : LazySort T R :=
  (List.range' start (stop + 1 - start)).foldl (fun s i => s.sortAt i) ls

/-- Source: `LazySort::get` (returns the element and the mutated state). -/
def LazySort.get {T R : Type} [LinearOrder R] (ls : LazySort T R) (index : Nat) :
    Option T × LazySort T R :=
  let ls' := if ls.sorted ≤ index then ls.sort_between ls.sorted index else ls
  (ls'.collection.get? index, ls')

/-! ### Transposition table (`engine/src/transposition_table.rs`) -/

/-- Source: `PartialEq for CheckersBitBoard` — don't-care bits are masked. -/
def boardEq (a b : CheckersBitBoard) : Prop :=
  a.pieces = b.pieces ∧ a.pieces &&& a.color = b.pieces &&& b.color ∧
    a.pieces &&& a.kings = b.pieces &&& b.kings ∧ a.turn = b.turn

instance (a b : CheckersBitBoard) : Decidable (boardEq a b) := by
  unfold boardEq; infer_instance

/-- Modelled from the spec: `CheckersBitBoard::hash_code` is called by the
transposition table but its definition is not among the provided sources;
per the spec ("Hash: derived from `pieces` alone") it is the `pieces`
mask. -/
def CheckersBitBoard.hash_code (b : CheckersBitBoard) : Nat := b.pieces

/-- Source: `TranspositionTableEntry` (`depth` is a `NonZeroU8`). -/
structure TranspositionTableEntry where
  board : CheckersBitBoard
  eval : Evaluation
  depth : Nat
deriving DecidableEq, Repr

/-- Source: `TranspositionTable` — the two bucket arrays (each of length
`table_size / 2`; the locks guard single-bucket access and are invisible
to the sequential semantics). -/
structure TranspositionTable where
  replace_table : List (Option TranspositionTableEntry)
  depth_table : List (Option TranspositionTableEntry)
deriving DecidableEq, Repr

/-- Source: `TranspositionTableRef::get`. -/
def TranspositionTable.get (t : TranspositionTable) (board : CheckersBitBoard)
    (depth : Nat) : Option Evaluation :=
  let table_len := t.replace_table.length
  let idx := board.hash_code % table_len
  let fromReplace :=
    match t.replace_table.getD idx none with
    | some entry =>
      if boardEq entry.board board ∧ depth ≤ entry.depth then some entry.eval else none
    | none => none
  match fromReplace with
  | some v => some v
  | none =>
    match t.depth_table.getD idx none with
    | some entry =>
      if boardEq entry.board board then
        if depth ≤ entry.depth then some entry.eval else none
      else none
    | none => none

/-- Source: `TranspositionTableRef::get_any_depth`. -/
def TranspositionTable.get_any_depth (t : TranspositionTable)
    (board : CheckersBitBoard) : Option Evaluation :=
  let table_len := t.replace_table.length
  let idx := board.hash_code % table_len
  let fromDepth :=
    match t.depth_table.getD idx none with
    | some entry => if boardEq entry.board board then some entry.eval else none
    | none => none
  match fromDepth with
  | some v => some v
  | none =>
    match t.replace_table.getD idx none with
    | some entry => if boardEq entry.board board then some entry.eval else none
    | none => none

/-- Source: `TranspositionTableRef::insert`. -/
def TranspositionTable.insert (t : TranspositionTable) (board : CheckersBitBoard)
    (eval : Evaluation) (depth : Nat) : TranspositionTable :=
  let table_len := t.replace_table.length
  let idx := board.hash_code % table_len
  let replace_table := t.replace_table.set idx (some ⟨board, eval, depth⟩)
  let depth_table :=
    match t.depth_table.getD idx none with
    | some entry_val =>
      if entry_val.depth ≤ depth then t.depth_table.set idx (some ⟨board, eval, depth⟩)
      else t.depth_table
    | none => t.depth_table.set idx (some ⟨board, eval, depth⟩)
  ⟨replace_table, depth_table⟩

/-! ### Engine facade (`engine/src/engine.rs`) -/

/-- Source: `Engine::is_legal_move` (the current position is passed
explicitly; the mutex only guards access). -/
def Engine.is_legal_move (position : CheckersBitBoard) (checker_move : Move) : Bool :=
  (PossibleMoves.moves position).contains checker_move

/-- Source: `Engine::apply_move`: `Some(())` and the new position on a
legal move, `None` and the unchanged position otherwise. -/
def Engine.apply_move (position : CheckersBitBoard) (checker_move : Move) :
    Option Unit × CheckersBitBoard :=
  if Engine.is_legal_move position checker_move then
    (some (), checker_move.apply_to position)
  else
    (none, position)

/-! ### Helper lemmas -/

theorem boardEq_refl (b : CheckersBitBoard) : boardEq b b := ⟨rfl, rfl, rfl, rfl⟩

/-! ### Claim C1 -/

/-- The board witnessing the divergence for claim C1: Dark men on squares 0
and 26, Light men on squares 7 and 27, Dark to move.  Both Dark men have a
jump, so the forward-left jump from square 0 is legal. -/
def C1board : CheckersBitBoard :=
  ⟨(1 <<< 0) ||| (1 <<< 7) ||| (1 <<< 26) ||| (1 <<< 27),
    (1 <<< 0) ||| (1 <<< 26), 0, PieceColor.Dark⟩

/-- The forward-left jump from square 0 (over 7, landing on 14). -/
def C1move : Move := Move.new 0 MoveDirection.ForwardLeft true

/-- Claim C1: the turn after a legal jump stays with the mover iff the mover
is a man, did not just promote, and further jumps are available from the
landing square.  The code instead consults the global `has_jumps` of the
resulting position: on `C1board` the legal man jump from 0 lands on 14,
no jump is available from square 14 (`has_jumps_at` is false there), the
piece did not promote, yet the resulting turn is still Dark because the
unrelated Dark man on 26 can jump. -/
theorem C1_code_behavior_at_failing_input :
    C1move ∈ movesList C1board ∧
    C1board.turn = PieceColor.Dark ∧
    C1board.king_at_unchecked 0 = false ∧
    (C1move.apply_to C1board).pieces = (1 <<< 14) ||| (1 <<< 26) ||| (1 <<< 27) ∧
    (C1move.apply_to C1board).turn = PieceColor.Dark ∧
    PossibleMoves.has_jumps_at (C1move.apply_to C1board) 14 = false ∧
    (C1move.apply_to C1board).king_at_unchecked 14 = false := by
  decide

/-! ### Claim C2 -/

/-- The lazy sorter witnessing the divergence for claim C2: the two-element
collection `[2, 1]` with the identity key. -/
def C2sorter : LazySort Nat Nat := ⟨[2, 1], 0, id⟩

/-- Claim C2: `LazySort::get(i)` should return the i-th smallest item and
iteration should be nondecreasing by key.  The source's `sort` starts its
selection pass with `min = None` and only ever compares when `min` is
`Some`, so no pass ever swaps: `get(0)` on `[2, 1]` returns `2` although
the smallest item is `1`, and iteration yields `2` then `1`, which is
decreasing. -/
theorem C2_code_behavior_at_failing_input :
    (C2sorter.get 0).1 = some 2 ∧
    ((C2sorter.get 0).2.get 1).1 = some 1 ∧
    (∀ x ∈ C2sorter.collection, 1 ≤ x) ∧ 1 ∈ C2sorter.collection ∧
    ¬ ((2 : Nat) ≤ 1) := by
  decide

/-! ### Claim C6 -/

/-- Claim C6: after `insert(b, e, d)` with `1 ≤ d ≤ 255`, a `get(b, dq)`
with `dq ≤ d` and no intervening insert returns `Some e` (the fresh entry
in the always-replace table satisfies the probe immediately). -/
theorem C6_tt_insert_then_get (t : TranspositionTable) (b : CheckersBitBoard)
    (e : Evaluation) (d dq : Nat) (hlen : 0 < t.replace_table.length)
    (hd1 : 1 ≤ d) (hd255 : d ≤ 255) (hdq : dq ≤ d) :
    (t.insert b e d).get b dq = some e := by
  have hidx : b.hash_code % t.replace_table.length < t.replace_table.length :=
    Nat.mod_lt _ hlen
  unfold TranspositionTable.insert TranspositionTable.get
  simp only [List.length_set, List.getD_eq_getElem?_getD,
    List.getElem?_set_eq_of_lt _ hidx, Option.getD_some]
  rw [if_pos ⟨boardEq_refl b, hdq⟩]

/-- Witness for claim C6 at a concrete table, board and depths. -/
theorem C6_tt_insert_then_get_witness :
    (TranspositionTable.get
      (TranspositionTable.insert ⟨[none, none], [none, none]⟩
        CheckersBitBoard.starting_position 5 3)
      CheckersBitBoard.starting_position 2) = some 5 :=
  C6_tt_insert_then_get ⟨[none, none], [none, none]⟩
    CheckersBitBoard.starting_position 5 3 2 (by decide) (by decide) (by decide)
    (by decide)

/-! ### Claim C7 -/

/-- Claim C7 counterexample: at the force-win value 32761 (five plies from
`WIN`), `force_sequence_length` is `some 5`, and after `increment` it is
`some 6` — one *more*, not one less as the claim states. -/
theorem C7_counterexample :
    Evaluation.force_sequence_length (32761 : Evaluation) = some 5 ∧
    Evaluation.force_sequence_length (Evaluation.increment (32761 : Evaluation)) =
      some 6 ∧
    (6 : Nat) ≠ 5 - 1 := by
  decide

/-- Arithmetic form of `force_sequence_length`. -/
theorem force_sequence_length_eq (e : Int) :
    Evaluation.force_sequence_length e =
      if e = 32767 ∨ e = -32767 then none
      else if 16383 < e then some ((32766 - e) % 256).toNat
      else if e < -16383 then some ((e - -32766) % 256).toNat
      else none := by
  unfold Evaluation.force_sequence_length Evaluation.is_force_win
    Evaluation.is_force_loss Evaluation.NULL_MAX Evaluation.NULL_MIN
    Evaluation.WIN Evaluation.LOSS Evaluation.FORCE_WIN_THRESHOLD
  simp only [decide_eq_true_eq]

/-- Arithmetic form of `increment`. -/
theorem increment_eq (e : Int) :
    Evaluation.increment e = if 16383 < e then e - 1 else if e < -16383 then e + 1 else e := by
  unfold Evaluation.increment Evaluation.is_force_win Evaluation.is_force_loss
    Evaluation.FORCE_WIN_THRESHOLD
  simp only [decide_eq_true_eq]

/-- Arithmetic form of `is_force_sequence`. -/
theorem is_force_sequence_iff (e : Int) :
    Evaluation.is_force_sequence e = true ↔ (16383 < e ∨ e < -16383) := by
  unfold Evaluation.is_force_sequence Evaluation.is_force_win
    Evaluation.is_force_loss Evaluation.FORCE_WIN_THRESHOLD
  simp only [Bool.or_eq_true, decide_eq_true_eq]

/-- Claim C7 (amended): `increment` moves a force value one step toward the
neutral band, so whenever `force_sequence_length e = some n` and the
incremented value is still in a force band, the incremented length is
`(n + 1) % 256` — one more, not one less; and `increment` is the identity
outside the force bands. -/
theorem C7_increment_amended (e : Int) (hlo : -32768 < e) (hhi : e ≤ 32767) :
    (Evaluation.is_force_sequence e = false → Evaluation.increment e = e) ∧
    (∀ n : Nat, Evaluation.force_sequence_length e = some n →
      Evaluation.is_force_sequence (Evaluation.increment e) = true →
      Evaluation.force_sequence_length (Evaluation.increment e) =
        some ((n + 1) % 256)) := by
  constructor
  · intro h
    have h' : ¬ (16383 < e ∨ e < -16383) := by
      intro hor
      rw [← Bool.not_eq_true, is_force_sequence_iff] at h
      exact h hor
    rw [increment_eq, if_neg (fun hw => h' (Or.inl hw)),
      if_neg (fun hl => h' (Or.inr hl))]
  · intro n hn hband
    rw [increment_eq] at hband ⊢
    rw [is_force_sequence_iff] at hband
    rw [force_sequence_length_eq] at hn
    have hne : ¬ (e = 32767 ∨ e = -32767) := by
      intro hor
      rw [if_pos hor] at hn
      exact Option.noConfusion hn
    rw [if_neg hne] at hn
    by_cases hw : (16383 : Int) < e
    · rw [if_pos hw] at hband ⊢
      rw [if_pos hw] at hn
      have hn' : ((32766 - e) % 256).toNat = n := Option.some.inj hn
      have hw2 : (16383 : Int) < e - 1 := by
        rcases hband with h1 | h1
        · exact h1
        · omega
      rw [force_sequence_length_eq, if_neg (by omega), if_pos hw2]
      congr 1
      omega
    · rw [if_neg hw] at hn hband ⊢
      by_cases hl : e < -16383
      · rw [if_pos hl] at hband ⊢
        rw [if_pos hl] at hn
        have hn' : ((e - -32766) % 256).toNat = n := Option.some.inj hn
        have hl2 : e + 1 < -16383 := by
          rcases hband with h1 | h1
          · omega
          · exact h1
        rw [force_sequence_length_eq, if_neg (by omega), if_neg (by omega),
          if_pos hl2]
        congr 1
        omega
      · rw [if_neg hl] at hn
        exact Option.noConfusion hn

/-- Witness for claim C7 at the concrete force-win value 32761. -/
theorem C7_increment_amended_witness :
    Evaluation.force_sequence_length
      (Evaluation.increment (32761 : Evaluation)) = some ((5 + 1) % 256) :=
  (C7_increment_amended (32761 : Evaluation) (by decide) (by decide)).2 5
    (by decide) (by decide)

/-! ### Claim C8 -/

/-- Claim C8: `apply_move` returns the failure indicator and leaves the
position unchanged exactly when the move is not contained in
`PossibleMoves::moves` of the current position; otherwise it succeeds and
the position becomes the result of applying the move. -/
theorem C8_apply_move (position : CheckersBitBoard) (m : Move) :
    ((Engine.apply_move position m).1 = none ↔
      (PossibleMoves.moves position).contains m = false) ∧
    (Engine.apply_move position m).2 =
      (if (PossibleMoves.moves position).contains m then m.apply_to position
       else position) := by
  unfold Engine.apply_move Engine.is_legal_move
  by_cases h : (PossibleMoves.moves position).contains m
  · simp [h]
  · simp [h]

/-! ### Claim C9 -/

/-- Claim C9: from the starting position the generator yields exactly 7
moves, and the perft sum at depth 2 over those 7 successor positions is
exactly 49. -/
theorem C9_perft_starting_position :
    (movesList CheckersBitBoard.starting_position).length = 7 ∧
    ((movesList CheckersBitBoard.starting_position).map
      (fun m => (movesList (m.apply_to CheckersBitBoard.starting_position)).length)).sum
      = 49 := by
  decide

/-! ### Bit-level infrastructure for the generator proofs -/

theorem beq_nat_decide (a b : Nat) : (a == b) = decide (a = b) := by
  cases h : decide (a = b)
  · simp only [decide_eq_false_iff_not] at h
    simpa using h
  · simp only [decide_eq_true_eq] at h
    simp [h]

theorem bit_test_eq (x i : Nat) : ((x >>> i) &&& 1 == 1) = x.testBit i := by
  rw [Nat.and_one_is_mod, Nat.shiftRight_eq_div_pow, Nat.testBit_to_div_mod,
    beq_nat_decide]

theorem lor_eq_zero {x y : Nat} : (x ||| y) = 0 ↔ x = 0 ∧ y = 0 := by
  constructor
  · intro h
    constructor
    · refine Nat.eq_of_testBit_eq fun i => ?_
      have h2 := congrArg (fun z => z.testBit i) h
      simp only [Nat.testBit_or, Nat.zero_testBit] at h2 ⊢
      simpa using (Bool.or_eq_false_iff.mp h2).1
    · refine Nat.eq_of_testBit_eq fun i => ?_
      have h2 := congrArg (fun z => z.testBit i) h
      simp only [Nat.testBit_or, Nat.zero_testBit] at h2 ⊢
      simpa using (Bool.or_eq_false_iff.mp h2).2
  · rintro ⟨rfl, rfl⟩
    rfl

theorem testBit_lt32 {x i : Nat} (hx : x < 2 ^ 32) (h : x.testBit i = true) : i < 32 := by
  by_contra h32
  rw [testBit_ge32 hx (Nat.le_of_not_lt h32)] at h
  exact Bool.noConfusion h

theorem ne_zero_of_testBit {x i : Nat} (h : x.testBit i = true) : x ≠ 0 := by
  intro h0
  rw [h0, Nat.zero_testBit] at h
  exact Bool.noConfusion h

theorem one_shiftLeft_lt {s : Nat} (hs : s < 32) : (1 <<< s) < 2 ^ 32 := by
  rw [Nat.one_shiftLeft]
  exact Nat.pow_lt_pow_right (by norm_num) hs

theorem testBit_one_shiftLeft (s i : Nat) : (1 <<< s).testBit i = decide (s = i) := by
  rw [Nat.one_shiftLeft]
  exact Nat.testBit_two_pow

theorem testBit_and3 (a b c i : Nat) :
    (a &&& b &&& c).testBit i = (a.testBit i && b.testBit i && c.testBit i) := by
  simp [Nat.testBit_and]

theorem testBit_and4 (a b c d i : Nat) :
    (a &&& b &&& c &&& d).testBit i =
      (a.testBit i && b.testBit i && c.testBit i && d.testBit i) := by
  simp [Nat.testBit_and]

theorem testBit_of_ite_zero {c : Prop} [Decidable c] {X i : Nat}
    (h : (if c then X else (0 : Nat)).testBit i = true) : X.testBit i = true := by
  by_cases hc : c
  · rwa [if_pos hc] at h
  · rw [if_neg hc, Nat.zero_testBit] at h
    exact Bool.noConfusion h

theorem testBit_clear_bit {x s i : Nat} (hs : s < 32) (hi : i < 32) :
    (x &&& u32not (1 <<< s)).testBit i = (x.testBit i && !decide (s = i)) := by
  rw [Nat.testBit_and, testBit_u32not (one_shiftLeft_lt hs) hi, testBit_one_shiftLeft]

theorem testBit_move_bits {x s d i : Nat} (hs : s < 32) (hi : i < 32) :
    ((x &&& u32not (1 <<< s)) ||| (1 <<< d)).testBit i =
      ((x.testBit i && !decide (s = i)) || decide (d = i)) := by
  rw [Nat.testBit_or, testBit_clear_bit hs hi, testBit_one_shiftLeft]

/-! ### pc32 lemmas -/

theorem pc32_le_of_imp {x y : Nat}
    (h : ∀ i, x.testBit i = true → y.testBit i = true) : pc32 x ≤ pc32 y := by
  unfold pc32
  refine Finset.card_le_card fun i hi => ?_
  simp only [Finset.mem_filter, Finset.mem_range] at hi ⊢
  exact ⟨hi.1, h i hi.2⟩

theorem pc32_clear_bit {x v : Nat} (hv : v < 32) (hb : x.testBit v = true) :
    pc32 (x &&& u32not (1 <<< v)) + 1 = pc32 x := by
  unfold pc32
  have hmem : v ∈ (Finset.range 32).filter (fun i => x.testBit i) := by
    simp [Finset.mem_filter, Finset.mem_range, hv, hb]
  have hset : (Finset.range 32).filter (fun i => (x &&& u32not (1 <<< v)).testBit i) =
      ((Finset.range 32).filter (fun i => x.testBit i)).erase v := by
    ext i
    simp only [Finset.mem_filter, Finset.mem_erase, Finset.mem_range]
    constructor
    · rintro ⟨hi, hbit⟩
      rw [testBit_clear_bit hv hi, Bool.and_eq_true, Bool.not_eq_true',
        decide_eq_false_iff_not] at hbit
      exact ⟨fun he => hbit.2 he.symm, hi, hbit.1⟩
    · rintro ⟨hne, hi, hbit⟩
      refine ⟨hi, ?_⟩
      rw [testBit_clear_bit hv hi, Bool.and_eq_true, Bool.not_eq_true',
        decide_eq_false_iff_not]
      exact ⟨hbit, fun he => hne he.symm⟩
  rw [hset, Finset.card_erase_of_mem hmem]
  have hpos : 0 < ((Finset.range 32).filter (fun i => x.testBit i)).card :=
    Finset.card_pos.mpr ⟨v, hmem⟩
  omega

theorem pc32_move_bit {x s d : Nat} (hs : s < 32) (hd : d < 32) (hsd : s ≠ d)
    (hbs : x.testBit s = true) (hbd : x.testBit d = false) :
    pc32 ((x &&& u32not (1 <<< s)) ||| (1 <<< d)) = pc32 x := by
  unfold pc32
  have hmem : s ∈ (Finset.range 32).filter (fun i => x.testBit i) := by
    simp [Finset.mem_filter, Finset.mem_range, hs, hbs]
  have hnotmem : d ∉ ((Finset.range 32).filter (fun i => x.testBit i)).erase s := by
    simp [Finset.mem_erase, Finset.mem_filter, hbd]
  have hset : (Finset.range 32).filter
      (fun i => ((x &&& u32not (1 <<< s)) ||| (1 <<< d)).testBit i) =
      insert d (((Finset.range 32).filter (fun i => x.testBit i)).erase s) := by
    ext i
    simp only [Finset.mem_filter, Finset.mem_insert, Finset.mem_erase, Finset.mem_range]
    constructor
    · rintro ⟨hi, hbit⟩
      rw [testBit_move_bits hs hi, Bool.or_eq_true, Bool.and_eq_true,
        Bool.not_eq_true', decide_eq_false_iff_not, decide_eq_true_eq] at hbit
      rcases hbit with ⟨hxb, hne⟩ | hde
      · exact Or.inr ⟨fun he => hne he.symm, hi, hxb⟩
      · exact Or.inl hde.symm
    · rintro (rfl | ⟨hne, hi, hxb⟩)
      · refine ⟨hd, ?_⟩
        rw [testBit_move_bits hs hd]
        simp
      · refine ⟨hi, ?_⟩
        rw [testBit_move_bits hs hi, Bool.or_eq_true, Bool.and_eq_true,
          Bool.not_eq_true', decide_eq_false_iff_not]
        exact Or.inl ⟨hxb, fun he => hne he.symm⟩
  rw [hset, Finset.card_insert_of_not_mem hnotmem, Finset.card_erase_of_mem hmem]
  have hpos : 0 < ((Finset.range 32).filter (fun i => x.testBit i)).card :=
    Finset.card_pos.mpr ⟨s, hmem⟩
  omega

/-! ### Move-encoding facts -/

theorem move_decode_fl {sq : Nat} (hsq : sq < 32) (j : Bool) :
    (Move.new sq MoveDirection.ForwardLeft j).start = sq ∧
      (Move.new sq MoveDirection.ForwardLeft j).direction = MoveDirection.ForwardLeft ∧
      (Move.new sq MoveDirection.ForwardLeft j).is_jump = j := by
  revert j
  revert hsq
  revert sq
  decide

theorem move_decode_fr {sq : Nat} (hsq : sq < 32) (j : Bool) :
    (Move.new sq MoveDirection.ForwardRight j).start = sq ∧
      (Move.new sq MoveDirection.ForwardRight j).direction = MoveDirection.ForwardRight ∧
      (Move.new sq MoveDirection.ForwardRight j).is_jump = j := by
  revert j
  revert hsq
  revert sq
  decide

theorem move_decode_bl {sq : Nat} (hsq : sq < 32) (j : Bool) :
    (Move.new sq MoveDirection.BackwardLeft j).start = sq ∧
      (Move.new sq MoveDirection.BackwardLeft j).direction = MoveDirection.BackwardLeft ∧
      (Move.new sq MoveDirection.BackwardLeft j).is_jump = j := by
  revert j
  revert hsq
  revert sq
  decide

theorem move_decode_br {sq : Nat} (hsq : sq < 32) (j : Bool) :
    (Move.new sq MoveDirection.BackwardRight j).start = sq ∧
      (Move.new sq MoveDirection.BackwardRight j).direction = MoveDirection.BackwardRight ∧
      (Move.new sq MoveDirection.BackwardRight j).is_jump = j := by
  revert j
  revert hsq
  revert sq
  decide

theorem move_decode {sq : Nat} (hsq : sq < 32) (dir : MoveDirection) (j : Bool) :
    (Move.new sq dir j).start = sq ∧ (Move.new sq dir j).direction = dir ∧
      (Move.new sq dir j).is_jump = j := by
  cases dir
  · exact move_decode_fl hsq j
  · exact move_decode_fr hsq j
  · exact move_decode_bl hsq j
  · exact move_decode_br hsq j

theorem move_start_lt32 (m : Move) : m.start < 32 := by
  have h : m.start ≤ 31 := Nat.le_of_lt_succ (Nat.lt_succ_of_le (Nat.and_le_right))
  omega

set_option maxRecDepth 4096 in
theorem move_encode_complete {m : Move} (hm : m < 256) :
    Move.new m.start m.direction m.is_jump = m := by
  revert hm
  revert m
  decide

/-! ### Square-list facts -/

theorem slideFL_lt32 : ∀ s ∈ slideFLSquares, s < 32 := by decide
theorem slideFR_lt32 : ∀ s ∈ slideFRSquares, s < 32 := by decide
theorem slideBL_lt32 : ∀ s ∈ slideBLSquares, s < 32 := by decide
theorem slideBR_lt32 : ∀ s ∈ slideBRSquares, s < 32 := by decide
theorem jumpFL_lt32 : ∀ s ∈ jumpFLSquares, s < 32 := by decide
theorem jumpFR_lt32 : ∀ s ∈ jumpFRSquares, s < 32 := by decide
theorem jumpBL_lt32 : ∀ s ∈ jumpBLSquares, s < 32 := by decide
theorem jumpBR_lt32 : ∀ s ∈ jumpBRSquares, s < 32 := by decide

theorem slideFL_nodup : slideFLSquares.Nodup := by decide
theorem slideFR_nodup : slideFRSquares.Nodup := by decide
theorem slideBL_nodup : slideBLSquares.Nodup := by decide
theorem slideBR_nodup : slideBRSquares.Nodup := by decide
theorem jumpFL_nodup : jumpFLSquares.Nodup := by decide
theorem jumpFR_nodup : jumpFRSquares.Nodup := by decide
theorem jumpBL_nodup : jumpBLSquares.Nodup := by decide
theorem jumpBR_nodup : jumpBRSquares.Nodup := by decide

theorem slideFL_mask_sub : ∀ i : Nat, i < 32 → SLIDE_FL_MASK.testBit i = true →
    i ∈ slideFLSquares := by decide
theorem slideFR_mask_sub : ∀ i : Nat, i < 32 → SLIDE_FR_MASK.testBit i = true →
    i ∈ slideFRSquares := by decide
theorem slideBL_mask_sub : ∀ i : Nat, i < 32 → SLIDE_BL_MASK.testBit i = true →
    i ∈ slideBLSquares := by decide
theorem slideBR_mask_sub : ∀ i : Nat, i < 32 → SLIDE_BR_MASK.testBit i = true →
    i ∈ slideBRSquares := by decide
theorem jumpFL_mask_sub : ∀ i : Nat, i < 32 → JUMP_FL_MASK.testBit i = true →
    i ∈ jumpFLSquares := by decide
theorem jumpFR_mask_sub : ∀ i : Nat, i < 32 → JUMP_FR_MASK.testBit i = true →
    i ∈ jumpFRSquares := by decide
theorem jumpBL_mask_sub : ∀ i : Nat, i < 32 → JUMP_BL_MASK.testBit i = true →
    i ∈ jumpBLSquares := by decide
theorem jumpBR_mask_sub : ∀ i : Nat, i < 32 → JUMP_BR_MASK.testBit i = true →
    i ∈ jumpBRSquares := by decide

theorem slide_br_mask_bit1 : SLIDE_BR_MASK.testBit 1 = false := by decide
theorem jump_br_mask_bit1 : JUMP_BR_MASK.testBit 1 = false := by decide

/-! ### Membership in the generated move list -/

theorem mem_addMoves {field : Nat} {squares : List Nat} {dir : MoveDirection}
    {j : Bool} {m : Move} :
    m ∈ addMoves field squares dir j ↔
      ∃ sq, sq ∈ squares ∧ field.testBit sq = true ∧ m = Move.new sq dir j := by
  unfold addMoves
  simp only [List.mem_map, List.mem_filter, bit_test_eq]
  constructor
  · rintro ⟨sq, ⟨hmem, hbit⟩, rfl⟩
    exact ⟨sq, hmem, hbit, rfl⟩
  · rintro ⟨sq, hmem, hbit, rfl⟩
    exact ⟨sq, ⟨hmem, hbit⟩, rfl⟩

/-! ### Field decomposition lemmas -/

theorem dark_pieces_sub (b : CheckersBitBoard) :
    ∀ i, b.dark_pieces.testBit i = true → b.pieces.testBit i = true := by
  intro i h
  rw [CheckersBitBoard.dark_pieces, Nat.testBit_and, Bool.and_eq_true] at h
  exact h.1

theorem light_pieces_sub (b : CheckersBitBoard) :
    ∀ i, b.light_pieces.testBit i = true → b.pieces.testBit i = true := by
  intro i h
  rw [CheckersBitBoard.light_pieces, Nat.testBit_and, Bool.and_eq_true] at h
  exact h.1

theorem dark_kings_sub (b : CheckersBitBoard) :
    ∀ i, b.dark_kings.testBit i = true → b.pieces.testBit i = true := by
  intro i h
  rw [CheckersBitBoard.dark_kings, Nat.testBit_and, Bool.and_eq_true] at h
  exact dark_pieces_sub b i h.1

theorem light_kings_sub (b : CheckersBitBoard) :
    ∀ i, b.light_kings.testBit i = true → b.pieces.testBit i = true := by
  intro i h
  rw [CheckersBitBoard.light_kings, Nat.testBit_and, Bool.and_eq_true] at h
  exact light_pieces_sub b i h.1

theorem bits_of_slide_rotr {p G M sq r : Nat} (hp : p < 2 ^ 32) (hr0 : 0 < r)
    (hr : r < 32) (hG : ∀ i, G.testBit i = true → p.testBit i = true) (hsq : sq < 32)
    (h : (rotr32 (u32not p) r &&& G &&& M).testBit sq = true) :
    p.testBit sq = true ∧ p.testBit ((sq + r) % 32) = false := by
  rw [testBit_and3, Bool.and_eq_true, Bool.and_eq_true] at h
  obtain ⟨⟨hrot, hGbit⟩, -⟩ := h
  refine ⟨hG sq hGbit, ?_⟩
  rw [testBit_rotr32 (u32not_lt hp) hr0 hr hsq] at hrot
  have hlt : (sq + r) % 32 < 32 := Nat.mod_lt _ (by norm_num)
  rw [testBit_u32not hp hlt] at hrot
  simpa using hrot

theorem bits_of_slide_rotl {p G M sq r : Nat} (hp : p < 2 ^ 32) (hr0 : 0 < r)
    (hr : r < 32) (hG : ∀ i, G.testBit i = true → p.testBit i = true) (hsq : sq < 32)
    (h : (rotl32 (u32not p) r &&& G &&& M).testBit sq = true) :
    p.testBit sq = true ∧ p.testBit ((sq + (32 - r)) % 32) = false := by
  rw [testBit_and3, Bool.and_eq_true, Bool.and_eq_true] at h
  obtain ⟨⟨hrot, hGbit⟩, -⟩ := h
  refine ⟨hG sq hGbit, ?_⟩
  rw [testBit_rotl32 (u32not_lt hp) hr0 hr hsq] at hrot
  have hlt : (sq + (32 - r)) % 32 < 32 := Nat.mod_lt _ (by norm_num)
  rw [testBit_u32not hp hlt] at hrot
  simpa using hrot

theorem bits_of_jump_rotr {p e G M sq r1 r2 : Nat} (hp : p < 2 ^ 32) (he : e < 2 ^ 32)
    (hr10 : 0 < r1) (hr1 : r1 < 32) (hr20 : 0 < r2) (hr2 : r2 < 32)
    (hG : ∀ i, G.testBit i = true → p.testBit i = true)
    (hE : ∀ i, e.testBit i = true → p.testBit i = true) (hsq : sq < 32)
    (h : (rotr32 (u32not p) r2 &&& rotr32 e r1 &&& G &&& M).testBit sq = true) :
    p.testBit sq = true ∧ p.testBit ((sq + r2) % 32) = false ∧
      p.testBit ((sq + r1) % 32) = true := by
  rw [testBit_and4, Bool.and_eq_true, Bool.and_eq_true, Bool.and_eq_true] at h
  obtain ⟨⟨⟨hrot, hmid⟩, hGbit⟩, -⟩ := h
  refine ⟨hG sq hGbit, ?_, ?_⟩
  · rw [testBit_rotr32 (u32not_lt hp) hr20 hr2 hsq] at hrot
    have hlt : (sq + r2) % 32 < 32 := Nat.mod_lt _ (by norm_num)
    rw [testBit_u32not hp hlt] at hrot
    simpa using hrot
  · rw [testBit_rotr32 he hr10 hr1 hsq] at hmid
    exact hE _ hmid

theorem bits_of_jump_rotl {p e G M sq r1 r2 : Nat} (hp : p < 2 ^ 32) (he : e < 2 ^ 32)
    (hr10 : 0 < r1) (hr1 : r1 < 32) (hr20 : 0 < r2) (hr2 : r2 < 32)
    (hG : ∀ i, G.testBit i = true → p.testBit i = true)
    (hE : ∀ i, e.testBit i = true → p.testBit i = true) (hsq : sq < 32)
    (h : (rotl32 (u32not p) r2 &&& rotl32 e r1 &&& G &&& M).testBit sq = true) :
    p.testBit sq = true ∧ p.testBit ((sq + (32 - r2)) % 32) = false ∧
      p.testBit ((sq + (32 - r1)) % 32) = true := by
  rw [testBit_and4, Bool.and_eq_true, Bool.and_eq_true, Bool.and_eq_true] at h
  obtain ⟨⟨⟨hrot, hmid⟩, hGbit⟩, -⟩ := h
  refine ⟨hG sq hGbit, ?_, ?_⟩
  · rw [testBit_rotl32 (u32not_lt hp) hr20 hr2 hsq] at hrot
    have hlt : (sq + (32 - r2)) % 32 < 32 := Nat.mod_lt _ (by norm_num)
    rw [testBit_u32not hp hlt] at hrot
    simpa using hrot
  · rw [testBit_rotl32 he hr10 hr1 hsq] at hmid
    exact hE _ hmid

/-! ### can_jump facts -/

theorem two_testBit_ne {i : Nat} (h : i ≠ 1) : (2 : Nat).testBit i = false := by
  have h2 : (2 : Nat) = 2 ^ 1 := rfl
  rw [h2, Nat.testBit_two_pow]
  simpa using fun he => h he.symm

theorem can_jump_iff (p : PossibleMoves) :
    p.can_jump = true ↔ p.backward_right_movers.testBit 1 = true := by
  unfold PossibleMoves.can_jump
  constructor
  · intro h
    simp only [bne_iff_ne, ne_eq] at h
    obtain ⟨i, hi⟩ := Nat.ne_zero_implies_bit_true h
    rw [Nat.testBit_and, Bool.and_eq_true] at hi
    have hieq : i = 1 := by
      by_contra hne
      rw [two_testBit_ne hne] at hi
      exact Bool.noConfusion hi.2
    subst hieq
    exact hi.1
  · intro h
    simp only [bne_iff_ne, ne_eq]
    intro h0
    have h2 := congrArg (fun z => z.testBit 1) h0
    simp only [Nat.testBit_and, Nat.zero_testBit, h, Bool.true_and] at h2
    exact Bool.noConfusion h2

theorem slidesDarkBR_bit1 (b : CheckersBitBoard) :
    (slidesDarkBR b).testBit 1 = false := by
  unfold slidesDarkBR
  split
  · rw [testBit_and3, slide_br_mask_bit1]
    simp
  · exact Nat.zero_testBit _

theorem slidesLightBR_bit1 (b : CheckersBitBoard) :
    (slidesLightBR b).testBit 1 = false := by
  unfold slidesLightBR
  rw [testBit_and3, slide_br_mask_bit1]
  simp

theorem jumpsDarkBR_bit1 (b : CheckersBitBoard) :
    (jumpsDarkBR b).testBit 1 = false := by
  unfold jumpsDarkBR
  split
  · rw [testBit_and4, jump_br_mask_bit1]
    simp
  · exact Nat.zero_testBit _

theorem jumpsLightBR_bit1 (b : CheckersBitBoard) :
    (jumpsLightBR b).testBit 1 = false := by
  unfold jumpsLightBR
  rw [testBit_and3, jump_br_mask_bit1]
  simp

theorem can_jump_slides_dark (b : CheckersBitBoard) :
    (PossibleMoves.slides_dark b).can_jump = false := by
  rw [← Bool.not_eq_true, can_jump_iff]
  show ¬ (slidesDarkBR b).testBit 1 = true
  rw [slidesDarkBR_bit1]
  exact Bool.noConfusion

theorem can_jump_slides_light (b : CheckersBitBoard) :
    (PossibleMoves.slides_light b).can_jump = false := by
  rw [← Bool.not_eq_true, can_jump_iff]
  show ¬ (slidesLightBR b).testBit 1 = true
  rw [slidesLightBR_bit1]
  exact Bool.noConfusion

theorem flag_testBit_ne1 {c : Prop} [Decidable c] {sq : Nat} (hsq : sq ≠ 1) :
    (if c then (2 : Nat) else 0).testBit sq = false := by
  split
  · exact two_testBit_ne hsq
  · exact Nat.zero_testBit _

/-! ### Emptiness and the can_jump flag -/

theorem two_testBit_one : (2 : Nat).testBit 1 = true := by decide

theorem and_mask_no_bit1 {x f : Nat} (hx : x < 2 ^ 32) (hx1 : x.testBit 1 = false)
    (hf : ∀ i, i ≠ 1 → f.testBit i = false) :
    (x ||| f) &&& 4294967293 = x := by
  have hm : (4294967293 : Nat) = mask32 ^^^ (2 : Nat) := by decide
  refine Nat.eq_of_testBit_eq fun i => ?_
  rw [Nat.testBit_and, Nat.testBit_or, hm, Nat.testBit_xor, testBit_mask32]
  rcases eq_or_ne i 1 with rfl | hne
  · simp [hx1, two_testBit_one]
  · by_cases hi : i < 32
    · simp [two_testBit_ne hne, hf i hne, hi]
    · simp [two_testBit_ne hne, hf i hne, hi, testBit_ge32 hx (Nat.le_of_not_lt hi)]

theorem jumpsDarkBR_lt (b : CheckersBitBoard) : jumpsDarkBR b < 2 ^ 32 := by
  unfold jumpsDarkBR
  split
  · exact lt_of_le_of_lt Nat.and_le_right (by norm_num [JUMP_BR_MASK])
  · norm_num

theorem jumpsLightBR_lt (b : CheckersBitBoard) : jumpsLightBR b < 2 ^ 32 := by
  unfold jumpsLightBR
  exact lt_of_le_of_lt Nat.and_le_right (by norm_num [JUMP_BR_MASK])

theorem jumpsDarkFlag_ne1 (b : CheckersBitBoard) :
    ∀ i, i ≠ 1 → (jumpsDarkFlag b).testBit i = false := by
  intro i hi
  unfold jumpsDarkFlag
  exact flag_testBit_ne1 hi

theorem jumpsLightFlag_ne1 (b : CheckersBitBoard) :
    ∀ i, i ≠ 1 → (jumpsLightFlag b).testBit i = false := by
  intro i hi
  unfold jumpsLightFlag
  exact flag_testBit_ne1 hi

theorem is_empty_jumps_dark (b : CheckersBitBoard) :
    (PossibleMoves.jumps_dark b).is_empty = true ↔
      (jumpsDarkFL b = 0 ∧ jumpsDarkFR b = 0 ∧ jumpsDarkBL b = 0 ∧
        jumpsDarkBR b = 0) := by
  show ((jumpsDarkBL b ||| jumpsDarkFL b ||| jumpsDarkFR b |||
      ((jumpsDarkBR b ||| jumpsDarkFlag b) &&& 4294967293)) == 0) = true ↔ _
  rw [and_mask_no_bit1 (jumpsDarkBR_lt b) (jumpsDarkBR_bit1 b) (jumpsDarkFlag_ne1 b)]
  rw [beq_iff_eq, lor_eq_zero, lor_eq_zero, lor_eq_zero]
  tauto

theorem is_empty_jumps_light (b : CheckersBitBoard) :
    (PossibleMoves.jumps_light b).is_empty = true ↔
      (jumpsLightFL b = 0 ∧ jumpsLightFR b = 0 ∧ jumpsLightBL b = 0 ∧
        jumpsLightBR b = 0) := by
  show ((jumpsLightBL b ||| jumpsLightFL b ||| jumpsLightFR b |||
      ((jumpsLightBR b ||| jumpsLightFlag b) &&& 4294967293)) == 0) = true ↔ _
  rw [and_mask_no_bit1 (jumpsLightBR_lt b) (jumpsLightBR_bit1 b) (jumpsLightFlag_ne1 b)]
  rw [beq_iff_eq, lor_eq_zero, lor_eq_zero, lor_eq_zero]
  tauto

theorem can_jump_jumps_dark (b : CheckersBitBoard) :
    (PossibleMoves.jumps_dark b).can_jump = true ↔
      ¬ (jumpsDarkFL b = 0 ∧ jumpsDarkFR b = 0 ∧ jumpsDarkBL b = 0 ∧
        jumpsDarkBR b = 0) := by
  rw [can_jump_iff]
  show (jumpsDarkBR b ||| jumpsDarkFlag b).testBit 1 = true ↔ _
  rw [Nat.testBit_or, jumpsDarkBR_bit1, Bool.false_or]
  unfold jumpsDarkFlag
  by_cases hc : jumpsDarkFL b ≠ 0 ∨ jumpsDarkFR b ≠ 0 ∨ jumpsDarkBL b ≠ 0 ∨
      jumpsDarkBR b ≠ 0
  · rw [if_pos hc, two_testBit_one]
    constructor
    · intro _
      tauto
    · intro _
      rfl
  · rw [if_neg hc, Nat.zero_testBit]
    constructor
    · intro h
      exact Bool.noConfusion h
    · intro h
      exfalso
      push_neg at hc
      exact h ⟨hc.1, hc.2.1, hc.2.2.1, hc.2.2.2⟩

theorem can_jump_jumps_light (b : CheckersBitBoard) :
    (PossibleMoves.jumps_light b).can_jump = true ↔
      ¬ (jumpsLightFL b = 0 ∧ jumpsLightFR b = 0 ∧ jumpsLightBL b = 0 ∧
        jumpsLightBR b = 0) := by
  rw [can_jump_iff]
  show (jumpsLightBR b ||| jumpsLightFlag b).testBit 1 = true ↔ _
  rw [Nat.testBit_or, jumpsLightBR_bit1, Bool.false_or]
  unfold jumpsLightFlag
  by_cases hc : jumpsLightFL b ≠ 0 ∨ jumpsLightFR b ≠ 0 ∨ jumpsLightBL b ≠ 0 ∨
      jumpsLightBR b ≠ 0
  · rw [if_pos hc, two_testBit_one]
    constructor
    · intro _
      tauto
    · intro _
      rfl
  · rw [if_neg hc, Nat.zero_testBit]
    constructor
    · intro h
      exact Bool.noConfusion h
    · intro h
      exfalso
      push_neg at hc
      exact h ⟨hc.1, hc.2.1, hc.2.2.1, hc.2.2.2⟩

/-! ### Reduction lemmas for `apply_to` -/

theorem moves_dark {b : CheckersBitBoard} (ht : b.turn = PieceColor.Dark) :
    PossibleMoves.moves b = PossibleMoves.dark_moves b := by
  unfold PossibleMoves.moves
  rw [ht]

theorem moves_light {b : CheckersBitBoard} (ht : b.turn = PieceColor.Light) :
    PossibleMoves.moves b = PossibleMoves.light_moves b := by
  unfold PossibleMoves.moves
  rw [ht]

theorem apply_to_slide_fl {m : Move} (hj : m.is_jump = false)
    (hd : m.direction = MoveDirection.ForwardLeft) (b : CheckersBitBoard) :
    m.apply_to b = b.move_piece_forward_left_unchecked m.start := by
  unfold Move.apply_to
  rw [hj, hd]

theorem apply_to_slide_fr {m : Move} (hj : m.is_jump = false)
    (hd : m.direction = MoveDirection.ForwardRight) (b : CheckersBitBoard) :
    m.apply_to b = b.move_piece_forward_right_unchecked m.start := by
  unfold Move.apply_to
  rw [hj, hd]

theorem apply_to_slide_bl {m : Move} (hj : m.is_jump = false)
    (hd : m.direction = MoveDirection.BackwardLeft) (b : CheckersBitBoard) :
    m.apply_to b = b.move_piece_backward_left_unchecked m.start := by
  unfold Move.apply_to
  rw [hj, hd]

theorem apply_to_slide_br {m : Move} (hj : m.is_jump = false)
    (hd : m.direction = MoveDirection.BackwardRight) (b : CheckersBitBoard) :
    m.apply_to b = b.move_piece_backward_right_unchecked m.start := by
  unfold Move.apply_to
  rw [hj, hd]

theorem apply_to_jump_fl {m : Move} (hj : m.is_jump = true)
    (hd : m.direction = MoveDirection.ForwardLeft) (b : CheckersBitBoard) :
    m.apply_to b = b.jump_piece_forward_left_unchecked m.start := by
  unfold Move.apply_to
  rw [hj, hd]

theorem apply_to_jump_fr {m : Move} (hj : m.is_jump = true)
    (hd : m.direction = MoveDirection.ForwardRight) (b : CheckersBitBoard) :
    m.apply_to b = b.jump_piece_forward_right_unchecked m.start := by
  unfold Move.apply_to
  rw [hj, hd]

theorem apply_to_jump_bl {m : Move} (hj : m.is_jump = true)
    (hd : m.direction = MoveDirection.BackwardLeft) (b : CheckersBitBoard) :
    m.apply_to b = b.jump_piece_backward_left_unchecked m.start := by
  unfold Move.apply_to
  rw [hj, hd]

theorem apply_to_jump_br {m : Move} (hj : m.is_jump = true)
    (hd : m.direction = MoveDirection.BackwardRight) (b : CheckersBitBoard) :
    m.apply_to b = b.jump_piece_backward_right_unchecked m.start := by
  unfold Move.apply_to
  rw [hj, hd]

theorem jump_fl_pieces (b : CheckersBitBoard) (v : Nat) :
    (b.jump_piece_forward_left_unchecked v).pieces =
      ((b.pieces &&& u32not (1 <<< v)) ||| (1 <<< ((v + 14) % 32))) &&&
        u32not (1 <<< ((v + 7) % 32)) := by
  unfold CheckersBitBoard.jump_piece_forward_left_unchecked
  dsimp only
  split <;> rfl

theorem jump_fr_pieces (b : CheckersBitBoard) (v : Nat) :
    (b.jump_piece_forward_right_unchecked v).pieces =
      ((b.pieces &&& u32not (1 <<< v)) ||| (1 <<< ((v + 2) % 32))) &&&
        u32not (1 <<< ((v + 1) % 32)) := by
  unfold CheckersBitBoard.jump_piece_forward_right_unchecked
  dsimp only
  split <;> rfl

theorem jump_bl_pieces (b : CheckersBitBoard) (v : Nat) :
    (b.jump_piece_backward_left_unchecked v).pieces =
      ((b.pieces &&& u32not (1 <<< v)) ||| (1 <<< ((v + 32 - 2) % 32))) &&&
        u32not (1 <<< ((v + 32 - 1) % 32)) := by
  unfold CheckersBitBoard.jump_piece_backward_left_unchecked
  dsimp only
  split <;> rfl

theorem jump_br_pieces (b : CheckersBitBoard) (v : Nat) :
    (b.jump_piece_backward_right_unchecked v).pieces =
      ((b.pieces &&& u32not (1 <<< v)) ||| (1 <<< ((v + 32 - 14) % 32))) &&&
        u32not (1 <<< ((v + 32 - 7) % 32)) := by
  unfold CheckersBitBoard.jump_piece_backward_right_unchecked
  dsimp only
  split <;> rfl

theorem pc32_jump_result {p v dest mid : Nat} (hv : v < 32) (hdest : dest < 32)
    (hmid : mid < 32) (hvd : v ≠ dest) (hvm : v ≠ mid) (hdm : dest ≠ mid)
    (hb1 : p.testBit v = true) (hb2 : p.testBit dest = false)
    (hb3 : p.testBit mid = true) :
    pc32 (((p &&& u32not (1 <<< v)) ||| (1 <<< dest)) &&& u32not (1 <<< mid)) + 1 =
      pc32 p := by
  have hmoved : ((p &&& u32not (1 <<< v)) ||| (1 <<< dest)).testBit mid = true := by
    rw [testBit_move_bits hv hmid]
    simp [hb3, hvm, hdm]
  rw [pc32_clear_bit hmid hmoved, pc32_move_bit hv hdest hvd hb1 hb2]

theorem jumpBR_ne1 : ∀ s ∈ jumpBRSquares, s ≠ 1 := by decide

/-! ### Claim C4 -/

/-- The `into_iter` list when `can_jump` is set. -/
theorem toList_of_can_jump {p : PossibleMoves} (h : p.can_jump = true) :
    p.toList =
      addMoves p.forward_left_movers jumpFLSquares MoveDirection.ForwardLeft true ++
      addMoves p.forward_right_movers jumpFRSquares MoveDirection.ForwardRight true ++
      addMoves p.backward_left_movers jumpBLSquares MoveDirection.BackwardLeft true ++
      addMoves p.backward_right_movers jumpBRSquares MoveDirection.BackwardRight true := by
  unfold PossibleMoves.toList
  rw [h]
  rfl

/-- The `into_iter` list when `can_jump` is clear. -/
theorem toList_of_not_can_jump {p : PossibleMoves} (h : p.can_jump = false) :
    p.toList =
      addMoves p.forward_left_movers slideFLSquares MoveDirection.ForwardLeft false ++
      addMoves p.forward_right_movers slideFRSquares MoveDirection.ForwardRight false ++
      addMoves p.backward_left_movers slideBLSquares MoveDirection.BackwardLeft false ++
      addMoves p.backward_right_movers slideBRSquares MoveDirection.BackwardRight false := by
  unfold PossibleMoves.toList
  rw [h]
  rfl

/-- Claim C4: for a well-formed board and a legal move (one yielded by
`PossibleMoves::moves`), applying the move preserves the piece population
count for a slide and decreases it by exactly one for a jump. -/
theorem C4_piece_count (b : CheckersBitBoard) (hwf : b.wf) (m : Move)
    (hm : m ∈ movesList b) :
    pc32 ((m.apply_to b).pieces) + (if m.is_jump then 1 else 0) = pc32 b.pieces := by
  obtain ⟨hp, hcol, hkg⟩ := hwf
  have hdp : b.dark_pieces < 2 ^ 32 := lt_of_le_of_lt Nat.and_le_left hp
  have hlp : b.light_pieces < 2 ^ 32 := lt_of_le_of_lt Nat.and_le_left hp
  unfold movesList at hm
  cases ht : b.turn with
  | Dark =>
    rw [moves_dark ht] at hm
    simp only [PossibleMoves.dark_moves] at hm
    by_cases hje : (PossibleMoves.jumps_dark b).is_empty = true
    · rw [if_pos hje, toList_of_not_can_jump (can_jump_slides_dark b)] at hm
      simp only [List.mem_append] at hm
      rcases hm with ((h1 | h1) | h1) | h1
      · rw [mem_addMoves] at h1
        obtain ⟨sq, hmem, hbit, rfl⟩ := h1
        have hsq : sq < 32 := slideFL_lt32 sq hmem
        obtain ⟨hstart, hdir, hjump⟩ := move_decode hsq MoveDirection.ForwardLeft false
        have hb := @bits_of_slide_rotr b.pieces b.dark_pieces SLIDE_FL_MASK sq 7 hp
          (by norm_num) (by norm_num) (dark_pieces_sub b) hsq hbit
        rw [apply_to_slide_fl hjump hdir, hstart, hjump]
        show pc32 ((b.pieces &&& u32not (1 <<< sq)) ||| (1 <<< ((sq + 7) % 32))) + 0 =
          pc32 b.pieces
        rw [Nat.add_zero]
        exact pc32_move_bit hsq (Nat.mod_lt _ (by norm_num)) (by omega) hb.1 hb.2
      · rw [mem_addMoves] at h1
        obtain ⟨sq, hmem, hbit, rfl⟩ := h1
        have hsq : sq < 32 := slideFR_lt32 sq hmem
        obtain ⟨hstart, hdir, hjump⟩ := move_decode hsq MoveDirection.ForwardRight false
        have hb := @bits_of_slide_rotr b.pieces b.dark_pieces SLIDE_FR_MASK sq 1 hp
          (by norm_num) (by norm_num) (dark_pieces_sub b) hsq hbit
        rw [apply_to_slide_fr hjump hdir, hstart, hjump]
        show pc32 ((b.pieces &&& u32not (1 <<< sq)) ||| (1 <<< ((sq + 1) % 32))) + 0 =
          pc32 b.pieces
        rw [Nat.add_zero]
        exact pc32_move_bit hsq (Nat.mod_lt _ (by norm_num)) (by omega) hb.1 hb.2
      · rw [mem_addMoves] at h1
        obtain ⟨sq, hmem, hbit, rfl⟩ := h1
        have hsq : sq < 32 := slideBL_lt32 sq hmem
        obtain ⟨hstart, hdir, hjump⟩ := move_decode hsq MoveDirection.BackwardLeft false
        have hbit2 := @testBit_of_ite_zero (0 < b.dark_kings) _
          (rotl32 (u32not b.pieces) 1 &&& b.dark_kings &&& SLIDE_BL_MASK) sq hbit
        have hb := @bits_of_slide_rotl b.pieces b.dark_kings SLIDE_BL_MASK sq 1 hp
          (by norm_num) (by norm_num) (dark_kings_sub b) hsq hbit2
        rw [apply_to_slide_bl hjump hdir, hstart, hjump]
        show pc32 ((b.pieces &&& u32not (1 <<< sq)) ||| (1 <<< ((sq + 32 - 1) % 32))) + 0 =
          pc32 b.pieces
        rw [Nat.add_zero]
        have hb2 : b.pieces.testBit ((sq + 32 - 1) % 32) = false := by
          have h0 := hb.2
          have he : (sq + (32 - 1)) % 32 = (sq + 32 - 1) % 32 := by omega
          rwa [he] at h0
        exact pc32_move_bit hsq (Nat.mod_lt _ (by norm_num)) (by omega) hb.1 hb2
      · rw [mem_addMoves] at h1
        obtain ⟨sq, hmem, hbit, rfl⟩ := h1
        have hsq : sq < 32 := slideBR_lt32 sq hmem
        obtain ⟨hstart, hdir, hjump⟩ := move_decode hsq MoveDirection.BackwardRight false
        have hbit2 := @testBit_of_ite_zero (0 < b.dark_kings) _
          (rotl32 (u32not b.pieces) 7 &&& b.dark_kings &&& SLIDE_BR_MASK) sq hbit
        have hb := @bits_of_slide_rotl b.pieces b.dark_kings SLIDE_BR_MASK sq 7 hp
          (by norm_num) (by norm_num) (dark_kings_sub b) hsq hbit2
        rw [apply_to_slide_br hjump hdir, hstart, hjump]
        show pc32 ((b.pieces &&& u32not (1 <<< sq)) ||| (1 <<< ((sq + 32 - 7) % 32))) + 0 =
          pc32 b.pieces
        rw [Nat.add_zero]
        have hb2 : b.pieces.testBit ((sq + 32 - 7) % 32) = false := by
          have h0 := hb.2
          have he : (sq + (32 - 7)) % 32 = (sq + 32 - 7) % 32 := by omega
          rwa [he] at h0
        exact pc32_move_bit hsq (Nat.mod_lt _ (by norm_num)) (by omega) hb.1 hb2
    · have hcj : (PossibleMoves.jumps_dark b).can_jump = true := by
        rw [can_jump_jumps_dark]
        intro hall
        exact hje ((is_empty_jumps_dark b).mpr hall)
      rw [if_neg hje, toList_of_can_jump hcj] at hm
      simp only [List.mem_append] at hm
      rcases hm with ((h1 | h1) | h1) | h1
      · rw [mem_addMoves] at h1
        obtain ⟨sq, hmem, hbit, rfl⟩ := h1
        have hsq : sq < 32 := jumpFL_lt32 sq hmem
        obtain ⟨hstart, hdir, hjump⟩ := move_decode hsq MoveDirection.ForwardLeft true
        have hb := @bits_of_jump_rotr b.pieces b.light_pieces b.dark_pieces JUMP_FL_MASK sq 7 14 hp hlp
          (by norm_num) (by norm_num) (by norm_num) (by norm_num)
          (dark_pieces_sub b) (light_pieces_sub b) hsq hbit
        rw [apply_to_jump_fl hjump hdir, hstart, hjump, jump_fl_pieces]
        show pc32 (((b.pieces &&& u32not (1 <<< sq)) ||| (1 <<< ((sq + 14) % 32))) &&&
          u32not (1 <<< ((sq + 7) % 32))) + 1 = pc32 b.pieces
        exact pc32_jump_result hsq (Nat.mod_lt _ (by norm_num))
          (Nat.mod_lt _ (by norm_num)) (by omega) (by omega) (by omega) hb.1 hb.2.1 hb.2.2
      · rw [mem_addMoves] at h1
        obtain ⟨sq, hmem, hbit, rfl⟩ := h1
        have hsq : sq < 32 := jumpFR_lt32 sq hmem
        obtain ⟨hstart, hdir, hjump⟩ := move_decode hsq MoveDirection.ForwardRight true
        have hb := @bits_of_jump_rotr b.pieces b.light_pieces b.dark_pieces JUMP_FR_MASK sq 1 2 hp hlp
          (by norm_num) (by norm_num) (by norm_num) (by norm_num)
          (dark_pieces_sub b) (light_pieces_sub b) hsq hbit
        rw [apply_to_jump_fr hjump hdir, hstart, hjump, jump_fr_pieces]
        show pc32 (((b.pieces &&& u32not (1 <<< sq)) ||| (1 <<< ((sq + 2) % 32))) &&&
          u32not (1 <<< ((sq + 1) % 32))) + 1 = pc32 b.pieces
        exact pc32_jump_result hsq (Nat.mod_lt _ (by norm_num))
          (Nat.mod_lt _ (by norm_num)) (by omega) (by omega) (by omega) hb.1 hb.2.1 hb.2.2
      · rw [mem_addMoves] at h1
        obtain ⟨sq, hmem, hbit, rfl⟩ := h1
        have hsq : sq < 32 := jumpBL_lt32 sq hmem
        obtain ⟨hstart, hdir, hjump⟩ := move_decode hsq MoveDirection.BackwardLeft true
        have hbit2 := @testBit_of_ite_zero (0 < b.dark_kings) _
          (rotl32 (u32not b.pieces) 2 &&& rotl32 b.light_pieces 1 &&& b.dark_kings &&& JUMP_BL_MASK) sq hbit
        have hb := @bits_of_jump_rotl b.pieces b.light_pieces b.dark_kings JUMP_BL_MASK sq 1 2 hp hlp
          (by norm_num) (by norm_num) (by norm_num) (by norm_num)
          (dark_kings_sub b) (light_pieces_sub b) hsq hbit2
        rw [apply_to_jump_bl hjump hdir, hstart, hjump, jump_bl_pieces]
        show pc32 (((b.pieces &&& u32not (1 <<< sq)) ||| (1 <<< ((sq + 32 - 2) % 32))) &&&
          u32not (1 <<< ((sq + 32 - 1) % 32))) + 1 = pc32 b.pieces
        have hd2 : b.pieces.testBit ((sq + 32 - 2) % 32) = false := by
          have h0 := hb.2.1
          have he : (sq + (32 - 2)) % 32 = (sq + 32 - 2) % 32 := by omega
          rwa [he] at h0
        have hm2 : b.pieces.testBit ((sq + 32 - 1) % 32) = true := by
          have h0 := hb.2.2
          have he : (sq + (32 - 1)) % 32 = (sq + 32 - 1) % 32 := by omega
          rwa [he] at h0
        exact pc32_jump_result hsq (Nat.mod_lt _ (by norm_num))
          (Nat.mod_lt _ (by norm_num)) (by omega) (by omega) (by omega) hb.1 hd2 hm2
      · rw [mem_addMoves] at h1
        obtain ⟨sq, hmem, hbit, rfl⟩ := h1
        have hsq : sq < 32 := jumpBR_lt32 sq hmem
        obtain ⟨hstart, hdir, hjump⟩ := move_decode hsq MoveDirection.BackwardRight true
        have hne1 := jumpBR_ne1 sq hmem
        have hbit1 : (jumpsDarkBR b ||| jumpsDarkFlag b).testBit sq = true := hbit
        have hbr : (jumpsDarkBR b).testBit sq = true := by
          rw [Nat.testBit_or, jumpsDarkFlag_ne1 b sq hne1, Bool.or_false] at hbit1
          exact hbit1
        have hbit2 := @testBit_of_ite_zero (0 < b.dark_kings) _
          (rotl32 (u32not b.pieces) 14 &&& rotl32 b.light_pieces 7 &&& b.dark_kings &&& JUMP_BR_MASK) sq hbr
        have hb := @bits_of_jump_rotl b.pieces b.light_pieces b.dark_kings JUMP_BR_MASK sq 7 14 hp hlp
          (by norm_num) (by norm_num) (by norm_num) (by norm_num)
          (dark_kings_sub b) (light_pieces_sub b) hsq hbit2
        rw [apply_to_jump_br hjump hdir, hstart, hjump, jump_br_pieces]
        show pc32 (((b.pieces &&& u32not (1 <<< sq)) ||| (1 <<< ((sq + 32 - 14) % 32))) &&&
          u32not (1 <<< ((sq + 32 - 7) % 32))) + 1 = pc32 b.pieces
        have hd2 : b.pieces.testBit ((sq + 32 - 14) % 32) = false := by
          have h0 := hb.2.1
          have he : (sq + (32 - 14)) % 32 = (sq + 32 - 14) % 32 := by omega
          rwa [he] at h0
        have hm2 : b.pieces.testBit ((sq + 32 - 7) % 32) = true := by
          have h0 := hb.2.2
          have he : (sq + (32 - 7)) % 32 = (sq + 32 - 7) % 32 := by omega
          rwa [he] at h0
        exact pc32_jump_result hsq (Nat.mod_lt _ (by norm_num))
          (Nat.mod_lt _ (by norm_num)) (by omega) (by omega) (by omega) hb.1 hd2 hm2
  | Light =>
    rw [moves_light ht] at hm
    simp only [PossibleMoves.light_moves] at hm
    by_cases hje : (PossibleMoves.jumps_light b).is_empty = true
    · rw [if_pos hje, toList_of_not_can_jump (can_jump_slides_light b)] at hm
      simp only [List.mem_append] at hm
      rcases hm with ((h1 | h1) | h1) | h1
      · rw [mem_addMoves] at h1
        obtain ⟨sq, hmem, hbit, rfl⟩ := h1
        have hsq : sq < 32 := slideFL_lt32 sq hmem
        obtain ⟨hstart, hdir, hjump⟩ := move_decode hsq MoveDirection.ForwardLeft false
        have hbit2 := @testBit_of_ite_zero (0 < b.light_kings) _
          (rotr32 (u32not b.pieces) 7 &&& b.light_kings &&& SLIDE_FL_MASK) sq hbit
        have hb := @bits_of_slide_rotr b.pieces b.light_kings SLIDE_FL_MASK sq 7 hp
          (by norm_num) (by norm_num) (light_kings_sub b) hsq hbit2
        rw [apply_to_slide_fl hjump hdir, hstart, hjump]
        show pc32 ((b.pieces &&& u32not (1 <<< sq)) ||| (1 <<< ((sq + 7) % 32))) + 0 =
          pc32 b.pieces
        rw [Nat.add_zero]
        exact pc32_move_bit hsq (Nat.mod_lt _ (by norm_num)) (by omega) hb.1 hb.2
      · rw [mem_addMoves] at h1
        obtain ⟨sq, hmem, hbit, rfl⟩ := h1
        have hsq : sq < 32 := slideFR_lt32 sq hmem
        obtain ⟨hstart, hdir, hjump⟩ := move_decode hsq MoveDirection.ForwardRight false
        have hbit2 := @testBit_of_ite_zero (0 < b.light_kings) _
          (rotr32 (u32not b.pieces) 1 &&& b.light_kings &&& SLIDE_FR_MASK) sq hbit
        have hb := @bits_of_slide_rotr b.pieces b.light_kings SLIDE_FR_MASK sq 1 hp
          (by norm_num) (by norm_num) (light_kings_sub b) hsq hbit2
        rw [apply_to_slide_fr hjump hdir, hstart, hjump]
        show pc32 ((b.pieces &&& u32not (1 <<< sq)) ||| (1 <<< ((sq + 1) % 32))) + 0 =
          pc32 b.pieces
        rw [Nat.add_zero]
        exact pc32_move_bit hsq (Nat.mod_lt _ (by norm_num)) (by omega) hb.1 hb.2
      · rw [mem_addMoves] at h1
        obtain ⟨sq, hmem, hbit, rfl⟩ := h1
        have hsq : sq < 32 := slideBL_lt32 sq hmem
        obtain ⟨hstart, hdir, hjump⟩ := move_decode hsq MoveDirection.BackwardLeft false
        have hb := @bits_of_slide_rotl b.pieces b.light_pieces SLIDE_BL_MASK sq 1 hp
          (by norm_num) (by norm_num) (light_pieces_sub b) hsq hbit
        rw [apply_to_slide_bl hjump hdir, hstart, hjump]
        show pc32 ((b.pieces &&& u32not (1 <<< sq)) ||| (1 <<< ((sq + 32 - 1) % 32))) + 0 =
          pc32 b.pieces
        rw [Nat.add_zero]
        have hb2 : b.pieces.testBit ((sq + 32 - 1) % 32) = false := by
          have h0 := hb.2
          have he : (sq + (32 - 1)) % 32 = (sq + 32 - 1) % 32 := by omega
          rwa [he] at h0
        exact pc32_move_bit hsq (Nat.mod_lt _ (by norm_num)) (by omega) hb.1 hb2
      · rw [mem_addMoves] at h1
        obtain ⟨sq, hmem, hbit, rfl⟩ := h1
        have hsq : sq < 32 := slideBR_lt32 sq hmem
        obtain ⟨hstart, hdir, hjump⟩ := move_decode hsq MoveDirection.BackwardRight false
        have hb := @bits_of_slide_rotl b.pieces b.light_pieces SLIDE_BR_MASK sq 7 hp
          (by norm_num) (by norm_num) (light_pieces_sub b) hsq hbit
        rw [apply_to_slide_br hjump hdir, hstart, hjump]
        show pc32 ((b.pieces &&& u32not (1 <<< sq)) ||| (1 <<< ((sq + 32 - 7) % 32))) + 0 =
          pc32 b.pieces
        rw [Nat.add_zero]
        have hb2 : b.pieces.testBit ((sq + 32 - 7) % 32) = false := by
          have h0 := hb.2
          have he : (sq + (32 - 7)) % 32 = (sq + 32 - 7) % 32 := by omega
          rwa [he] at h0
        exact pc32_move_bit hsq (Nat.mod_lt _ (by norm_num)) (by omega) hb.1 hb2
    · have hcj : (PossibleMoves.jumps_light b).can_jump = true := by
        rw [can_jump_jumps_light]
        intro hall
        exact hje ((is_empty_jumps_light b).mpr hall)
      rw [if_neg hje, toList_of_can_jump hcj] at hm
      simp only [List.mem_append] at hm
      rcases hm with ((h1 | h1) | h1) | h1
      · rw [mem_addMoves] at h1
        obtain ⟨sq, hmem, hbit, rfl⟩ := h1
        have hsq : sq < 32 := jumpFL_lt32 sq hmem
        obtain ⟨hstart, hdir, hjump⟩ := move_decode hsq MoveDirection.ForwardLeft true
        have hbit2 := @testBit_of_ite_zero (0 < b.light_kings) _
          (rotr32 (u32not b.pieces) 14 &&& rotr32 b.dark_pieces 7 &&& b.light_kings &&& JUMP_FL_MASK) sq hbit
        have hb := @bits_of_jump_rotr b.pieces b.dark_pieces b.light_kings JUMP_FL_MASK sq 7 14 hp hdp
          (by norm_num) (by norm_num) (by norm_num) (by norm_num)
          (light_kings_sub b) (dark_pieces_sub b) hsq hbit2
        rw [apply_to_jump_fl hjump hdir, hstart, hjump, jump_fl_pieces]
        show pc32 (((b.pieces &&& u32not (1 <<< sq)) ||| (1 <<< ((sq + 14) % 32))) &&&
          u32not (1 <<< ((sq + 7) % 32))) + 1 = pc32 b.pieces
        exact pc32_jump_result hsq (Nat.mod_lt _ (by norm_num))
          (Nat.mod_lt _ (by norm_num)) (by omega) (by omega) (by omega) hb.1 hb.2.1 hb.2.2
      · rw [mem_addMoves] at h1
        obtain ⟨sq, hmem, hbit, rfl⟩ := h1
        have hsq : sq < 32 := jumpFR_lt32 sq hmem
        obtain ⟨hstart, hdir, hjump⟩ := move_decode hsq MoveDirection.ForwardRight true
        have hbit2 := @testBit_of_ite_zero (0 < b.light_kings) _
          (rotr32 (u32not b.pieces) 2 &&& rotr32 b.dark_pieces 1 &&& b.light_kings &&& JUMP_FR_MASK) sq hbit
        have hb := @bits_of_jump_rotr b.pieces b.dark_pieces b.light_kings JUMP_FR_MASK sq 1 2 hp hdp
          (by norm_num) (by norm_num) (by norm_num) (by norm_num)
          (light_kings_sub b) (dark_pieces_sub b) hsq hbit2
        rw [apply_to_jump_fr hjump hdir, hstart, hjump, jump_fr_pieces]
        show pc32 (((b.pieces &&& u32not (1 <<< sq)) ||| (1 <<< ((sq + 2) % 32))) &&&
          u32not (1 <<< ((sq + 1) % 32))) + 1 = pc32 b.pieces
        exact pc32_jump_result hsq (Nat.mod_lt _ (by norm_num))
          (Nat.mod_lt _ (by norm_num)) (by omega) (by omega) (by omega) hb.1 hb.2.1 hb.2.2
      · rw [mem_addMoves] at h1
        obtain ⟨sq, hmem, hbit, rfl⟩ := h1
        have hsq : sq < 32 := jumpBL_lt32 sq hmem
        obtain ⟨hstart, hdir, hjump⟩ := move_decode hsq MoveDirection.BackwardLeft true
        have hb := @bits_of_jump_rotl b.pieces b.dark_pieces b.light_pieces JUMP_BL_MASK sq 1 2 hp hdp
          (by norm_num) (by norm_num) (by norm_num) (by norm_num)
          (light_pieces_sub b) (dark_pieces_sub b) hsq hbit
        rw [apply_to_jump_bl hjump hdir, hstart, hjump, jump_bl_pieces]
        show pc32 (((b.pieces &&& u32not (1 <<< sq)) ||| (1 <<< ((sq + 32 - 2) % 32))) &&&
          u32not (1 <<< ((sq + 32 - 1) % 32))) + 1 = pc32 b.pieces
        have hd2 : b.pieces.testBit ((sq + 32 - 2) % 32) = false := by
          have h0 := hb.2.1
          have he : (sq + (32 - 2)) % 32 = (sq + 32 - 2) % 32 := by omega
          rwa [he] at h0
        have hm2 : b.pieces.testBit ((sq + 32 - 1) % 32) = true := by
          have h0 := hb.2.2
          have he : (sq + (32 - 1)) % 32 = (sq + 32 - 1) % 32 := by omega
          rwa [he] at h0
        exact pc32_jump_result hsq (Nat.mod_lt _ (by norm_num))
          (Nat.mod_lt _ (by norm_num)) (by omega) (by omega) (by omega) hb.1 hd2 hm2
      · rw [mem_addMoves] at h1
        obtain ⟨sq, hmem, hbit, rfl⟩ := h1
        have hsq : sq < 32 := jumpBR_lt32 sq hmem
        obtain ⟨hstart, hdir, hjump⟩ := move_decode hsq MoveDirection.BackwardRight true
        have hne1 := jumpBR_ne1 sq hmem
        have hbit1 : (jumpsLightBR b ||| jumpsLightFlag b).testBit sq = true := hbit
        have hbr : (jumpsLightBR b).testBit sq = true := by
          rw [Nat.testBit_or, jumpsLightFlag_ne1 b sq hne1, Bool.or_false] at hbit1
          exact hbit1
        have hb := @bits_of_jump_rotl b.pieces b.dark_pieces b.light_pieces JUMP_BR_MASK sq 7 14 hp hdp
          (by norm_num) (by norm_num) (by norm_num) (by norm_num)
          (light_pieces_sub b) (dark_pieces_sub b) hsq hbr
        rw [apply_to_jump_br hjump hdir, hstart, hjump, jump_br_pieces]
        show pc32 (((b.pieces &&& u32not (1 <<< sq)) ||| (1 <<< ((sq + 32 - 14) % 32))) &&&
          u32not (1 <<< ((sq + 32 - 7) % 32))) + 1 = pc32 b.pieces
        have hd2 : b.pieces.testBit ((sq + 32 - 14) % 32) = false := by
          have h0 := hb.2.1
          have he : (sq + (32 - 14)) % 32 = (sq + 32 - 14) % 32 := by omega
          rwa [he] at h0
        have hm2 : b.pieces.testBit ((sq + 32 - 7) % 32) = true := by
          have h0 := hb.2.2
          have he : (sq + (32 - 7)) % 32 = (sq + 32 - 7) % 32 := by omega
          rwa [he] at h0
        exact pc32_jump_result hsq (Nat.mod_lt _ (by norm_num))
          (Nat.mod_lt _ (by norm_num)) (by omega) (by omega) (by omega) hb.1 hd2 hm2

/-- Witness for claim C4: the forward-left slide from square 8 at the
starting position keeps the piece count. -/
theorem C4_piece_count_witness :
    pc32 (((Move.new 8 MoveDirection.ForwardLeft false).apply_to
        CheckersBitBoard.starting_position).pieces) +
      (if (Move.new 8 MoveDirection.ForwardLeft false).is_jump then 1 else 0) =
      pc32 CheckersBitBoard.starting_position.pieces :=
  C4_piece_count CheckersBitBoard.starting_position (by decide)
    (Move.new 8 MoveDirection.ForwardLeft false) (by decide)

/-! ### has_jumps in terms of the jump mover fields -/

set_option maxHeartbeats 1600000 in
theorem has_jumps_dark_eq (b : CheckersBitBoard) :
    PossibleMoves.has_jumps_dark b =
      ((jumpsDarkFL b ||| jumpsDarkFR b ||| jumpsDarkBL b ||| jumpsDarkBR b) != 0) := by
  unfold PossibleMoves.has_jumps_dark
  by_cases hk : 0 < b.kings
  · rw [if_pos hk]
    have heq : b.dark_pieces &&&
        (darkJumpSpacesFwd b ||| (b.kings &&& darkJumpSpacesBwd b)) =
        jumpsDarkFL b ||| jumpsDarkFR b ||| jumpsDarkBL b ||| jumpsDarkBR b := by
      by_cases hdk : 0 < b.dark_kings
      · refine Nat.eq_of_testBit_eq fun i => ?_
        have hdkbit : b.dark_kings.testBit i =
            (b.dark_pieces.testBit i && b.kings.testBit i) := by
          unfold CheckersBitBoard.dark_kings
          rw [Nat.testBit_and]
        unfold darkJumpSpacesFwd darkJumpSpacesBwd jumpsDarkFL jumpsDarkFR
          jumpsDarkBL jumpsDarkBR
        rw [if_pos hdk, if_pos hdk]
        simp only [Nat.testBit_and, Nat.testBit_or, hdkbit]
        rw [Bool.eq_iff_iff]
        simp only [Bool.and_eq_true, Bool.or_eq_true, Bool.false_eq_true, or_false,
          false_or, and_false, false_and]
        itauto
      · have h0 : b.dark_kings = 0 := by omega
        refine Nat.eq_of_testBit_eq fun i => ?_
        have hz : (b.dark_pieces.testBit i && b.kings.testBit i) = false := by
          have h1 : b.dark_kings.testBit i = false := by
            rw [h0]
            exact Nat.zero_testBit i
          unfold CheckersBitBoard.dark_kings at h1
          rwa [Nat.testBit_and] at h1
        have hz2 : ¬ (b.dark_pieces.testBit i = true ∧ b.kings.testBit i = true) := by
          rintro ⟨ha, hb2⟩
          rw [ha, hb2] at hz
          exact Bool.noConfusion hz
        unfold darkJumpSpacesFwd darkJumpSpacesBwd jumpsDarkFL jumpsDarkFR
          jumpsDarkBL jumpsDarkBR
        rw [if_neg hdk, if_neg hdk]
        simp only [Nat.testBit_and, Nat.testBit_or, Nat.zero_testBit]
        rw [Bool.eq_iff_iff]
        simp only [Bool.and_eq_true, Bool.or_eq_true, Bool.false_eq_true, or_false,
          false_or, and_false, false_and]
        itauto
    rw [heq]
  · rw [if_neg hk]
    have h0 : b.kings = 0 := by omega
    have hdk : ¬ 0 < b.dark_kings := by
      unfold CheckersBitBoard.dark_kings
      rw [h0, Nat.and_zero]
      omega
    have heq : b.dark_pieces &&& darkJumpSpacesFwd b =
        jumpsDarkFL b ||| jumpsDarkFR b ||| jumpsDarkBL b ||| jumpsDarkBR b := by
      refine Nat.eq_of_testBit_eq fun i => ?_
      unfold darkJumpSpacesFwd jumpsDarkFL jumpsDarkFR jumpsDarkBL jumpsDarkBR
      rw [if_neg hdk, if_neg hdk]
      simp only [Nat.testBit_and, Nat.testBit_or, Nat.zero_testBit]
      rw [Bool.eq_iff_iff]
      simp only [Bool.and_eq_true, Bool.or_eq_true, Bool.false_eq_true, or_false,
          false_or, and_false, false_and]
      itauto
    rw [heq]

set_option maxHeartbeats 1600000 in
theorem has_jumps_light_eq (b : CheckersBitBoard) :
    PossibleMoves.has_jumps_light b =
      ((jumpsLightFL b ||| jumpsLightFR b ||| jumpsLightBL b ||| jumpsLightBR b)
        != 0) := by
  unfold PossibleMoves.has_jumps_light
  by_cases hk : 0 < b.kings
  · rw [if_pos hk]
    have heq : b.light_pieces &&&
        ((b.kings &&& lightJumpSpacesFwd b) ||| lightJumpSpacesBwd b) =
        jumpsLightFL b ||| jumpsLightFR b ||| jumpsLightBL b ||| jumpsLightBR b := by
      by_cases hdk : 0 < b.light_kings
      · refine Nat.eq_of_testBit_eq fun i => ?_
        have hdkbit : b.light_kings.testBit i =
            (b.light_pieces.testBit i && b.kings.testBit i) := by
          unfold CheckersBitBoard.light_kings
          rw [Nat.testBit_and]
        unfold lightJumpSpacesFwd lightJumpSpacesBwd jumpsLightFL jumpsLightFR
          jumpsLightBL jumpsLightBR
        rw [if_pos hdk, if_pos hdk]
        simp only [Nat.testBit_and, Nat.testBit_or, hdkbit]
        rw [Bool.eq_iff_iff]
        simp only [Bool.and_eq_true, Bool.or_eq_true, Bool.false_eq_true, or_false,
          false_or, and_false, false_and]
        itauto
      · have h0 : b.light_kings = 0 := by omega
        refine Nat.eq_of_testBit_eq fun i => ?_
        have hz : (b.light_pieces.testBit i && b.kings.testBit i) = false := by
          have h1 : b.light_kings.testBit i = false := by
            rw [h0]
            exact Nat.zero_testBit i
          unfold CheckersBitBoard.light_kings at h1
          rwa [Nat.testBit_and] at h1
        have hz2 : ¬ (b.light_pieces.testBit i = true ∧ b.kings.testBit i = true) := by
          rintro ⟨ha, hb2⟩
          rw [ha, hb2] at hz
          exact Bool.noConfusion hz
        unfold lightJumpSpacesFwd lightJumpSpacesBwd jumpsLightFL jumpsLightFR
          jumpsLightBL jumpsLightBR
        rw [if_neg hdk, if_neg hdk]
        simp only [Nat.testBit_and, Nat.testBit_or, Nat.zero_testBit]
        rw [Bool.eq_iff_iff]
        simp only [Bool.and_eq_true, Bool.or_eq_true, Bool.false_eq_true, or_false,
          false_or, and_false, false_and]
        itauto
    rw [heq]
  · rw [if_neg hk]
    have h0 : b.kings = 0 := by omega
    have hdk : ¬ 0 < b.light_kings := by
      unfold CheckersBitBoard.light_kings
      rw [h0, Nat.and_zero]
      omega
    have heq : b.light_pieces &&& lightJumpSpacesBwd b =
        jumpsLightFL b ||| jumpsLightFR b ||| jumpsLightBL b ||| jumpsLightBR b := by
      refine Nat.eq_of_testBit_eq fun i => ?_
      unfold lightJumpSpacesBwd jumpsLightFL jumpsLightFR jumpsLightBL jumpsLightBR
      rw [if_neg hdk, if_neg hdk]
      simp only [Nat.testBit_and, Nat.testBit_or, Nat.zero_testBit]
      rw [Bool.eq_iff_iff]
      simp only [Bool.and_eq_true, Bool.or_eq_true, Bool.false_eq_true, or_false,
          false_or, and_false, false_and]
      itauto
    rw [heq]

/-! ### Claim C5 -/

theorem all_jump_toList {p : PossibleMoves} (h : p.can_jump = true) :
    ∀ m ∈ p.toList, m.is_jump = true := by
  intro m hm
  rw [toList_of_can_jump h] at hm
  simp only [List.mem_append] at hm
  rcases hm with ((h1 | h1) | h1) | h1 <;>
    first
    | · rw [mem_addMoves] at h1
        obtain ⟨sq, hmem, hbit, rfl⟩ := h1
        exact (move_decode (jumpFL_lt32 sq hmem) _ true).2.2
    | · rw [mem_addMoves] at h1
        obtain ⟨sq, hmem, hbit, rfl⟩ := h1
        exact (move_decode (jumpFR_lt32 sq hmem) _ true).2.2
    | · rw [mem_addMoves] at h1
        obtain ⟨sq, hmem, hbit, rfl⟩ := h1
        exact (move_decode (jumpBL_lt32 sq hmem) _ true).2.2
    | · rw [mem_addMoves] at h1
        obtain ⟨sq, hmem, hbit, rfl⟩ := h1
        exact (move_decode (jumpBR_lt32 sq hmem) _ true).2.2

theorem all_slide_toList {p : PossibleMoves} (h : p.can_jump = false) :
    ∀ m ∈ p.toList, m.is_jump = false := by
  intro m hm
  rw [toList_of_not_can_jump h] at hm
  simp only [List.mem_append] at hm
  rcases hm with ((h1 | h1) | h1) | h1 <;>
    first
    | · rw [mem_addMoves] at h1
        obtain ⟨sq, hmem, hbit, rfl⟩ := h1
        exact (move_decode (slideFL_lt32 sq hmem) _ false).2.2
    | · rw [mem_addMoves] at h1
        obtain ⟨sq, hmem, hbit, rfl⟩ := h1
        exact (move_decode (slideFR_lt32 sq hmem) _ false).2.2
    | · rw [mem_addMoves] at h1
        obtain ⟨sq, hmem, hbit, rfl⟩ := h1
        exact (move_decode (slideBL_lt32 sq hmem) _ false).2.2
    | · rw [mem_addMoves] at h1
        obtain ⟨sq, hmem, hbit, rfl⟩ := h1
        exact (move_decode (slideBR_lt32 sq hmem) _ false).2.2

theorem mask_bit_of_and {A M i : Nat} (h : (A &&& M).testBit i = true) :
    M.testBit i = true := by
  rw [Nat.testBit_and, Bool.and_eq_true] at h
  exact h.2

theorem jumpsDarkFL_lt (b : CheckersBitBoard) : jumpsDarkFL b < 2 ^ 32 := by
  unfold jumpsDarkFL
  exact lt_of_le_of_lt Nat.and_le_right (by norm_num [JUMP_FL_MASK])

theorem jumpsDarkFR_lt (b : CheckersBitBoard) : jumpsDarkFR b < 2 ^ 32 := by
  unfold jumpsDarkFR
  exact lt_of_le_of_lt Nat.and_le_right (by norm_num [JUMP_FR_MASK])

theorem jumpsDarkBL_lt (b : CheckersBitBoard) : jumpsDarkBL b < 2 ^ 32 := by
  unfold jumpsDarkBL
  split
  · exact lt_of_le_of_lt Nat.and_le_right (by norm_num [JUMP_BL_MASK])
  · norm_num

theorem jumpsLightFL_lt (b : CheckersBitBoard) : jumpsLightFL b < 2 ^ 32 := by
  unfold jumpsLightFL
  split
  · exact lt_of_le_of_lt Nat.and_le_right (by norm_num [JUMP_FL_MASK])
  · norm_num

theorem jumpsLightFR_lt (b : CheckersBitBoard) : jumpsLightFR b < 2 ^ 32 := by
  unfold jumpsLightFR
  split
  · exact lt_of_le_of_lt Nat.and_le_right (by norm_num [JUMP_FR_MASK])
  · norm_num

theorem jumpsLightBL_lt (b : CheckersBitBoard) : jumpsLightBL b < 2 ^ 32 := by
  unfold jumpsLightBL
  exact lt_of_le_of_lt Nat.and_le_right (by norm_num [JUMP_BL_MASK])

theorem jumpsDark_mask_bit {b : CheckersBitBoard} {i : Nat} :
    (jumpsDarkFL b).testBit i = true → JUMP_FL_MASK.testBit i = true := by
  intro h
  unfold jumpsDarkFL at h
  exact mask_bit_of_and h

theorem jumps_dark_toList_ne_nil {b : CheckersBitBoard}
    (h : ¬ (jumpsDarkFL b = 0 ∧ jumpsDarkFR b = 0 ∧ jumpsDarkBL b = 0 ∧
      jumpsDarkBR b = 0)) :
    (PossibleMoves.jumps_dark b).toList ≠ [] := by
  have hcj : (PossibleMoves.jumps_dark b).can_jump = true :=
    (can_jump_jumps_dark b).mpr h
  rw [toList_of_can_jump hcj]
  by_cases h1 : jumpsDarkFL b = 0
  · by_cases h2 : jumpsDarkFR b = 0
    · by_cases h3 : jumpsDarkBL b = 0
      · have h4 : jumpsDarkBR b ≠ 0 := fun h4 => h ⟨h1, h2, h3, h4⟩
        obtain ⟨i, hi⟩ := Nat.ne_zero_implies_bit_true h4
        have hi32 : i < 32 := testBit_lt32 (jumpsDarkBR_lt b) hi
        have hmask : JUMP_BR_MASK.testBit i = true := by
          have hx := @testBit_of_ite_zero (0 < b.dark_kings) _
            (rotl32 (u32not b.pieces) 14 &&& rotl32 b.light_pieces 7 &&&
              b.dark_kings &&& JUMP_BR_MASK) i hi
          exact mask_bit_of_and hx
        have hmem : i ∈ jumpBRSquares := jumpBR_mask_sub i hi32 hmask
        have hbit : ((PossibleMoves.jumps_dark b).backward_right_movers).testBit i
            = true := by
          show (jumpsDarkBR b ||| jumpsDarkFlag b).testBit i = true
          rw [Nat.testBit_or, hi]
          rfl
        exact List.ne_nil_of_mem (by
          simp only [List.mem_append]
          exact Or.inr (mem_addMoves.mpr ⟨i, hmem, hbit, rfl⟩))
      · obtain ⟨i, hi⟩ := Nat.ne_zero_implies_bit_true h3
        have hi32 : i < 32 := testBit_lt32 (jumpsDarkBL_lt b) hi
        have hmask : JUMP_BL_MASK.testBit i = true := by
          have hx := @testBit_of_ite_zero (0 < b.dark_kings) _
            (rotl32 (u32not b.pieces) 2 &&& rotl32 b.light_pieces 1 &&&
              b.dark_kings &&& JUMP_BL_MASK) i hi
          exact mask_bit_of_and hx
        have hmem : i ∈ jumpBLSquares := jumpBL_mask_sub i hi32 hmask
        exact List.ne_nil_of_mem (by
          simp only [List.mem_append]
          exact Or.inl (Or.inr (mem_addMoves.mpr ⟨i, hmem, hi, rfl⟩)))
    · obtain ⟨i, hi⟩ := Nat.ne_zero_implies_bit_true h2
      have hi32 : i < 32 := testBit_lt32 (jumpsDarkFR_lt b) hi
      have hmask : JUMP_FR_MASK.testBit i = true := by
        unfold jumpsDarkFR at hi
        exact mask_bit_of_and hi
      have hmem : i ∈ jumpFRSquares := jumpFR_mask_sub i hi32 hmask
      exact List.ne_nil_of_mem (by
        simp only [List.mem_append]
        exact Or.inl (Or.inl (Or.inr (mem_addMoves.mpr ⟨i, hmem, hi, rfl⟩))))
  · obtain ⟨i, hi⟩ := Nat.ne_zero_implies_bit_true h1
    have hi32 : i < 32 := testBit_lt32 (jumpsDarkFL_lt b) hi
    have hmask : JUMP_FL_MASK.testBit i = true := by
      unfold jumpsDarkFL at hi
      exact mask_bit_of_and hi
    have hmem : i ∈ jumpFLSquares := jumpFL_mask_sub i hi32 hmask
    exact List.ne_nil_of_mem (by
      simp only [List.mem_append]
      exact Or.inl (Or.inl (Or.inl (mem_addMoves.mpr ⟨i, hmem, hi, rfl⟩))))

theorem jumps_light_toList_ne_nil {b : CheckersBitBoard}
    (h : ¬ (jumpsLightFL b = 0 ∧ jumpsLightFR b = 0 ∧ jumpsLightBL b = 0 ∧
      jumpsLightBR b = 0)) :
    (PossibleMoves.jumps_light b).toList ≠ [] := by
  have hcj : (PossibleMoves.jumps_light b).can_jump = true :=
    (can_jump_jumps_light b).mpr h
  rw [toList_of_can_jump hcj]
  by_cases h1 : jumpsLightFL b = 0
  · by_cases h2 : jumpsLightFR b = 0
    · by_cases h3 : jumpsLightBL b = 0
      · have h4 : jumpsLightBR b ≠ 0 := fun h4 => h ⟨h1, h2, h3, h4⟩
        obtain ⟨i, hi⟩ := Nat.ne_zero_implies_bit_true h4
        have hi32 : i < 32 := testBit_lt32 (jumpsLightBR_lt b) hi
        have hmask : JUMP_BR_MASK.testBit i = true := by
          unfold jumpsLightBR at hi
          exact mask_bit_of_and hi
        have hmem : i ∈ jumpBRSquares := jumpBR_mask_sub i hi32 hmask
        have hbit : ((PossibleMoves.jumps_light b).backward_right_movers).testBit i
            = true := by
          show (jumpsLightBR b ||| jumpsLightFlag b).testBit i = true
          rw [Nat.testBit_or, hi]
          rfl
        exact List.ne_nil_of_mem (by
          simp only [List.mem_append]
          exact Or.inr (mem_addMoves.mpr ⟨i, hmem, hbit, rfl⟩))
      · obtain ⟨i, hi⟩ := Nat.ne_zero_implies_bit_true h3
        have hi32 : i < 32 := testBit_lt32 (jumpsLightBL_lt b) hi
        have hmask : JUMP_BL_MASK.testBit i = true := by
          unfold jumpsLightBL at hi
          exact mask_bit_of_and hi
        have hmem : i ∈ jumpBLSquares := jumpBL_mask_sub i hi32 hmask
        exact List.ne_nil_of_mem (by
          simp only [List.mem_append]
          exact Or.inl (Or.inr (mem_addMoves.mpr ⟨i, hmem, hi, rfl⟩)))
    · obtain ⟨i, hi⟩ := Nat.ne_zero_implies_bit_true h2
      have hi32 : i < 32 := testBit_lt32 (jumpsLightFR_lt b) hi
      have hmask : JUMP_FR_MASK.testBit i = true := by
        have hx := @testBit_of_ite_zero (0 < b.light_kings) _
          (rotr32 (u32not b.pieces) 2 &&& rotr32 b.dark_pieces 1 &&&
            b.light_kings &&& JUMP_FR_MASK) i hi
        exact mask_bit_of_and hx
      have hmem : i ∈ jumpFRSquares := jumpFR_mask_sub i hi32 hmask
      exact List.ne_nil_of_mem (by
        simp only [List.mem_append]
        exact Or.inl (Or.inl (Or.inr (mem_addMoves.mpr ⟨i, hmem, hi, rfl⟩))))
  · obtain ⟨i, hi⟩ := Nat.ne_zero_implies_bit_true h1
    have hi32 : i < 32 := testBit_lt32 (jumpsLightFL_lt b) hi
    have hmask : JUMP_FL_MASK.testBit i = true := by
      have hx := @testBit_of_ite_zero (0 < b.light_kings) _
        (rotr32 (u32not b.pieces) 14 &&& rotr32 b.dark_pieces 7 &&&
          b.light_kings &&& JUMP_FL_MASK) i hi
      exact mask_bit_of_and hx
    have hmem : i ∈ jumpFLSquares := jumpFL_mask_sub i hi32 hmask
    exact List.ne_nil_of_mem (by
      simp only [List.mem_append]
      exact Or.inl (Or.inl (Or.inl (mem_addMoves.mpr ⟨i, hmem, hi, rfl⟩))))

/-- Claim C5 (amended): `has_jumps(b)` always agrees with the `can_jump`
flag of the full move-generation result, and it is true iff the generated
move list is nonempty and consists solely of jumps.  (The claim's original
"every yielded move is a jump" direction alone fails when no move exists
at all: the move list is then vacuously all-jump while `has_jumps` is
false.) -/
theorem C5_has_jumps_amended (b : CheckersBitBoard) :
    PossibleMoves.has_jumps b = (PossibleMoves.moves b).can_jump ∧
    (PossibleMoves.has_jumps b = true ↔
      (movesList b ≠ [] ∧ ∀ m ∈ movesList b, m.is_jump = true)) := by
  cases ht : b.turn with
  | Dark =>
    have hh : PossibleMoves.has_jumps b = PossibleMoves.has_jumps_dark b := by
      unfold PossibleMoves.has_jumps
      rw [ht]
    unfold movesList
    rw [hh, moves_dark ht, has_jumps_dark_eq]
    simp only [PossibleMoves.dark_moves]
    by_cases hall : jumpsDarkFL b = 0 ∧ jumpsDarkFR b = 0 ∧ jumpsDarkBL b = 0 ∧
        jumpsDarkBR b = 0
    · have he := (is_empty_jumps_dark b).mpr hall
      rw [if_pos he]
      obtain ⟨h1, h2, h3, h4⟩ := hall
      rw [h1, h2, h3, h4]
      refine ⟨by rw [can_jump_slides_dark]; decide, ?_⟩
      constructor
      · intro hfalse
        exact absurd hfalse (by decide)
      · rintro ⟨hne, hall2⟩
        exfalso
        obtain ⟨m, hm⟩ := List.exists_mem_of_ne_nil _ hne
        have hs := all_slide_toList (can_jump_slides_dark b) m hm
        rw [hall2 m hm] at hs
        exact Bool.noConfusion hs
    · have hcj : (PossibleMoves.jumps_dark b).can_jump = true :=
        (can_jump_jumps_dark b).mpr hall
      have hne0 : (jumpsDarkFL b ||| jumpsDarkFR b ||| jumpsDarkBL b |||
          jumpsDarkBR b) ≠ 0 := by
        intro h0
        rw [lor_eq_zero, lor_eq_zero, lor_eq_zero] at h0
        exact hall ⟨h0.1.1.1, h0.1.1.2, h0.1.2, h0.2⟩
      have he : ¬ (PossibleMoves.jumps_dark b).is_empty = true := by
        intro he1
        exact hall ((is_empty_jumps_dark b).mp he1)
      rw [if_neg he]
      constructor
      · rw [hcj]
        simp [bne_iff_ne, hne0]
      · constructor
        · intro _
          exact ⟨jumps_dark_toList_ne_nil hall, all_jump_toList hcj⟩
        · intro _
          simp [bne_iff_ne, hne0]
  | Light =>
    have hh : PossibleMoves.has_jumps b = PossibleMoves.has_jumps_light b := by
      unfold PossibleMoves.has_jumps
      rw [ht]
    unfold movesList
    rw [hh, moves_light ht, has_jumps_light_eq]
    simp only [PossibleMoves.light_moves]
    by_cases hall : jumpsLightFL b = 0 ∧ jumpsLightFR b = 0 ∧ jumpsLightBL b = 0 ∧
        jumpsLightBR b = 0
    · have he := (is_empty_jumps_light b).mpr hall
      rw [if_pos he]
      obtain ⟨h1, h2, h3, h4⟩ := hall
      rw [h1, h2, h3, h4]
      refine ⟨by rw [can_jump_slides_light]; decide, ?_⟩
      constructor
      · intro hfalse
        exact absurd hfalse (by decide)
      · rintro ⟨hne, hall2⟩
        exfalso
        obtain ⟨m, hm⟩ := List.exists_mem_of_ne_nil _ hne
        have hs := all_slide_toList (can_jump_slides_light b) m hm
        rw [hall2 m hm] at hs
        exact Bool.noConfusion hs
    · have hcj : (PossibleMoves.jumps_light b).can_jump = true :=
        (can_jump_jumps_light b).mpr hall
      have hne0 : (jumpsLightFL b ||| jumpsLightFR b ||| jumpsLightBL b |||
          jumpsLightBR b) ≠ 0 := by
        intro h0
        rw [lor_eq_zero, lor_eq_zero, lor_eq_zero] at h0
        exact hall ⟨h0.1.1.1, h0.1.1.2, h0.1.2, h0.2⟩
      have he : ¬ (PossibleMoves.jumps_light b).is_empty = true := by
        intro he1
        exact hall ((is_empty_jumps_light b).mp he1)
      rw [if_neg he]
      constructor
      · rw [hcj]
        simp [bne_iff_ne, hne0]
      · constructor
        · intro _
          exact ⟨jumps_light_toList_ne_nil hall, all_jump_toList hcj⟩
        · intro _
          simp [bne_iff_ne, hne0]

/-- Counterexample for claim C5 as stated: on the empty board every
yielded move is (vacuously) a jump, yet `has_jumps` is false. -/
theorem C5_counterexample :
    (∀ m ∈ movesList ⟨0, 0, 0, PieceColor.Dark⟩, m.is_jump = true) ∧
      PossibleMoves.has_jumps ⟨0, 0, 0, PieceColor.Dark⟩ = false := by
  decide

/-! ### Claim C10 -/

theorem pc32_or_le (x y : Nat) : pc32 (x ||| y) ≤ pc32 x + pc32 y := by
  unfold pc32
  have hsub : (Finset.range 32).filter (fun i => (x ||| y).testBit i) ⊆
      (Finset.range 32).filter (fun i => x.testBit i) ∪
        (Finset.range 32).filter (fun i => y.testBit i) := by
    intro i hi
    rw [Finset.mem_filter] at hi
    rw [Finset.mem_union, Finset.mem_filter, Finset.mem_filter]
    have h2 := hi.2
    rw [Nat.testBit_or, Bool.or_eq_true] at h2
    rcases h2 with h2 | h2
    · exact Or.inl ⟨hi.1, h2⟩
    · exact Or.inr ⟨hi.1, h2⟩
  exact le_trans (Finset.card_le_card hsub) (Finset.card_union_le _ _)

theorem pc32_flag_le {c : Prop} [Decidable c] :
    pc32 (if c then (2 : Nat) else 0) ≤ 1 := by
  split
  · rw [show pc32 (2 : Nat) = 1 from by decide]
  · rw [show pc32 (0 : Nat) = 0 from by decide]
    omega

theorem length_addMoves_le_pc32 {field : Nat} {squares : List Nat}
    {dir : MoveDirection} {j : Bool} (hnodup : squares.Nodup)
    (hlt : ∀ s ∈ squares, s < 32) :
    (addMoves field squares dir j).length ≤ pc32 field := by
  unfold addMoves
  rw [List.length_map]
  have hnd := hnodup.filter (fun sq => (field >>> sq) &&& 1 == 1)
  have hsub : (squares.filter (fun sq => (field >>> sq) &&& 1 == 1)).toFinset ⊆
      (Finset.range 32).filter (fun i => field.testBit i) := by
    intro i hi
    rw [List.mem_toFinset, List.mem_filter] at hi
    rw [Finset.mem_filter, Finset.mem_range]
    refine ⟨hlt i hi.1, ?_⟩
    have h2 := hi.2
    rwa [bit_test_eq] at h2
  calc (squares.filter (fun sq => (field >>> sq) &&& 1 == 1)).length
      = (squares.filter (fun sq => (field >>> sq) &&& 1 == 1)).toFinset.card :=
        (List.toFinset_card_of_nodup hnd).symm
    _ ≤ ((Finset.range 32).filter (fun i => field.testBit i)).card :=
        Finset.card_le_card hsub

theorem pc32_dark_kings_le (b : CheckersBitBoard) :
    pc32 b.dark_kings ≤ pc32 b.dark_pieces :=
  pc32_le_of_imp fun i h => by
    unfold CheckersBitBoard.dark_kings at h
    rw [Nat.testBit_and, Bool.and_eq_true] at h
    exact h.1

theorem pc32_light_kings_le (b : CheckersBitBoard) :
    pc32 b.light_kings ≤ pc32 b.light_pieces :=
  pc32_le_of_imp fun i h => by
    unfold CheckersBitBoard.light_kings at h
    rw [Nat.testBit_and, Bool.and_eq_true] at h
    exact h.1


theorem sdFL_le (b : CheckersBitBoard) : pc32 (slidesDarkFL b) ≤ pc32 b.dark_pieces := by
  refine pc32_le_of_imp fun i h => ?_
  unfold slidesDarkFL at h
  have h2 := h
  rw [testBit_and3] at h2
  simp only [Bool.and_eq_true] at h2
  exact h2.1.2

theorem sdFR_le (b : CheckersBitBoard) : pc32 (slidesDarkFR b) ≤ pc32 b.dark_pieces := by
  refine pc32_le_of_imp fun i h => ?_
  unfold slidesDarkFR at h
  have h2 := h
  rw [testBit_and3] at h2
  simp only [Bool.and_eq_true] at h2
  exact h2.1.2

theorem sdBL_le (b : CheckersBitBoard) : pc32 (slidesDarkBL b) ≤ pc32 b.dark_pieces := by
  refine le_trans ?_ (pc32_dark_kings_le b)
  refine pc32_le_of_imp fun i h => ?_
  unfold slidesDarkBL at h
  have h2 := testBit_of_ite_zero h
  rw [testBit_and3] at h2
  simp only [Bool.and_eq_true] at h2
  exact h2.1.2

theorem sdBR_le (b : CheckersBitBoard) : pc32 (slidesDarkBR b) ≤ pc32 b.dark_pieces := by
  refine le_trans ?_ (pc32_dark_kings_le b)
  refine pc32_le_of_imp fun i h => ?_
  unfold slidesDarkBR at h
  have h2 := testBit_of_ite_zero h
  rw [testBit_and3] at h2
  simp only [Bool.and_eq_true] at h2
  exact h2.1.2

theorem slBL_le (b : CheckersBitBoard) : pc32 (slidesLightBL b) ≤ pc32 b.light_pieces := by
  refine pc32_le_of_imp fun i h => ?_
  unfold slidesLightBL at h
  have h2 := h
  rw [testBit_and3] at h2
  simp only [Bool.and_eq_true] at h2
  exact h2.1.2

theorem slBR_le (b : CheckersBitBoard) : pc32 (slidesLightBR b) ≤ pc32 b.light_pieces := by
  refine pc32_le_of_imp fun i h => ?_
  unfold slidesLightBR at h
  have h2 := h
  rw [testBit_and3] at h2
  simp only [Bool.and_eq_true] at h2
  exact h2.1.2

theorem slFL_le (b : CheckersBitBoard) : pc32 (slidesLightFL b) ≤ pc32 b.light_pieces := by
  refine le_trans ?_ (pc32_light_kings_le b)
  refine pc32_le_of_imp fun i h => ?_
  unfold slidesLightFL at h
  have h2 := testBit_of_ite_zero h
  rw [testBit_and3] at h2
  simp only [Bool.and_eq_true] at h2
  exact h2.1.2

theorem slFR_le (b : CheckersBitBoard) : pc32 (slidesLightFR b) ≤ pc32 b.light_pieces := by
  refine le_trans ?_ (pc32_light_kings_le b)
  refine pc32_le_of_imp fun i h => ?_
  unfold slidesLightFR at h
  have h2 := testBit_of_ite_zero h
  rw [testBit_and3] at h2
  simp only [Bool.and_eq_true] at h2
  exact h2.1.2

theorem jdFL_le (b : CheckersBitBoard) : pc32 (jumpsDarkFL b) ≤ pc32 b.dark_pieces := by
  refine pc32_le_of_imp fun i h => ?_
  unfold jumpsDarkFL at h
  have h2 := h
  rw [testBit_and4] at h2
  simp only [Bool.and_eq_true] at h2
  exact h2.1.2

theorem jdFR_le (b : CheckersBitBoard) : pc32 (jumpsDarkFR b) ≤ pc32 b.dark_pieces := by
  refine pc32_le_of_imp fun i h => ?_
  unfold jumpsDarkFR at h
  have h2 := h
  rw [testBit_and4] at h2
  simp only [Bool.and_eq_true] at h2
  exact h2.1.2

theorem jdBL_le (b : CheckersBitBoard) : pc32 (jumpsDarkBL b) ≤ pc32 b.dark_pieces := by
  refine le_trans ?_ (pc32_dark_kings_le b)
  refine pc32_le_of_imp fun i h => ?_
  unfold jumpsDarkBL at h
  have h2 := testBit_of_ite_zero h
  rw [testBit_and4] at h2
  simp only [Bool.and_eq_true] at h2
  exact h2.1.2

theorem jdBR_le (b : CheckersBitBoard) : pc32 (jumpsDarkBR b) ≤ pc32 b.dark_pieces := by
  refine le_trans ?_ (pc32_dark_kings_le b)
  refine pc32_le_of_imp fun i h => ?_
  unfold jumpsDarkBR at h
  have h2 := testBit_of_ite_zero h
  rw [testBit_and4] at h2
  simp only [Bool.and_eq_true] at h2
  exact h2.1.2

theorem jlBL_le (b : CheckersBitBoard) : pc32 (jumpsLightBL b) ≤ pc32 b.light_pieces := by
  refine pc32_le_of_imp fun i h => ?_
  unfold jumpsLightBL at h
  have h2 := h
  rw [testBit_and4] at h2
  simp only [Bool.and_eq_true] at h2
  exact h2.1.2

theorem jlBR_le (b : CheckersBitBoard) : pc32 (jumpsLightBR b) ≤ pc32 b.light_pieces := by
  refine pc32_le_of_imp fun i h => ?_
  unfold jumpsLightBR at h
  have h2 := h
  rw [testBit_and4] at h2
  simp only [Bool.and_eq_true] at h2
  exact h2.1.2

theorem jlFL_le (b : CheckersBitBoard) : pc32 (jumpsLightFL b) ≤ pc32 b.light_pieces := by
  refine le_trans ?_ (pc32_light_kings_le b)
  refine pc32_le_of_imp fun i h => ?_
  unfold jumpsLightFL at h
  have h2 := testBit_of_ite_zero h
  rw [testBit_and4] at h2
  simp only [Bool.and_eq_true] at h2
  exact h2.1.2

theorem jlFR_le (b : CheckersBitBoard) : pc32 (jumpsLightFR b) ≤ pc32 b.light_pieces := by
  refine le_trans ?_ (pc32_light_kings_le b)
  refine pc32_le_of_imp fun i h => ?_
  unfold jumpsLightFR at h
  have h2 := testBit_of_ite_zero h
  rw [testBit_and4] at h2
  simp only [Bool.and_eq_true] at h2
  exact h2.1.2

/-- Claim C10: for a well-formed board with at most 12 pieces per color,
the iterator construction writes fewer than 50 moves, so every write into
the fixed `POSSIBLE_MOVES_ITER_SIZE = 50` buffer is in bounds and the
debug assertion `length < 50` holds at every write. -/
theorem C10_iter_buffer (b : CheckersBitBoard) (h : b.wf12) :
    (movesList b).length < 50 := by
  obtain ⟨hwf, hd12, hl12⟩ := h
  have hd12' : pc32 b.dark_pieces ≤ 12 := hd12
  have hl12' : pc32 b.light_pieces ≤ 12 := hl12
  unfold movesList
  cases ht : b.turn with
  | Dark =>
    rw [moves_dark ht]
    simp only [PossibleMoves.dark_moves]
    by_cases hje : (PossibleMoves.jumps_dark b).is_empty = true
    · rw [if_pos hje, toList_of_not_can_jump (can_jump_slides_dark b)]
      simp only [List.length_append]
      have h1 : (addMoves (PossibleMoves.slides_dark b).forward_left_movers
          slideFLSquares MoveDirection.ForwardLeft false).length ≤ 12 :=
        le_trans (le_trans (length_addMoves_le_pc32 slideFL_nodup slideFL_lt32)
          (sdFL_le b)) hd12'
      have h2 : (addMoves (PossibleMoves.slides_dark b).forward_right_movers
          slideFRSquares MoveDirection.ForwardRight false).length ≤ 12 :=
        le_trans (le_trans (length_addMoves_le_pc32 slideFR_nodup slideFR_lt32)
          (sdFR_le b)) hd12'
      have h3 : (addMoves (PossibleMoves.slides_dark b).backward_left_movers
          slideBLSquares MoveDirection.BackwardLeft false).length ≤ 12 :=
        le_trans (le_trans (length_addMoves_le_pc32 slideBL_nodup slideBL_lt32)
          (sdBL_le b)) hd12'
      have h4 : (addMoves (PossibleMoves.slides_dark b).backward_right_movers
          slideBRSquares MoveDirection.BackwardRight false).length ≤ 12 :=
        le_trans (le_trans (length_addMoves_le_pc32 slideBR_nodup slideBR_lt32)
          (sdBR_le b)) hd12'
      omega
    · have hcj : (PossibleMoves.jumps_dark b).can_jump = true := by
        rw [can_jump_jumps_dark]
        intro hall
        exact hje ((is_empty_jumps_dark b).mpr hall)
      rw [if_neg hje, toList_of_can_jump hcj]
      simp only [List.length_append]
      have h1 : (addMoves (PossibleMoves.jumps_dark b).forward_left_movers
          jumpFLSquares MoveDirection.ForwardLeft true).length ≤ 12 :=
        le_trans (le_trans (length_addMoves_le_pc32 jumpFL_nodup jumpFL_lt32)
          (jdFL_le b)) hd12'
      have h2 : (addMoves (PossibleMoves.jumps_dark b).forward_right_movers
          jumpFRSquares MoveDirection.ForwardRight true).length ≤ 12 :=
        le_trans (le_trans (length_addMoves_le_pc32 jumpFR_nodup jumpFR_lt32)
          (jdFR_le b)) hd12'
      have h3 : (addMoves (PossibleMoves.jumps_dark b).backward_left_movers
          jumpBLSquares MoveDirection.BackwardLeft true).length ≤ 12 :=
        le_trans (le_trans (length_addMoves_le_pc32 jumpBL_nodup jumpBL_lt32)
          (jdBL_le b)) hd12'
      have h4 : (addMoves (PossibleMoves.jumps_dark b).backward_right_movers
          jumpBRSquares MoveDirection.BackwardRight true).length ≤ 13 := by
        refine le_trans (length_addMoves_le_pc32 jumpBR_nodup jumpBR_lt32) ?_
        refine le_trans (pc32_or_le (jumpsDarkBR b) (jumpsDarkFlag b)) ?_
        have hbr := le_trans (jdBR_le b) hd12'
        have hflag : pc32 (jumpsDarkFlag b) ≤ 1 := by
          unfold jumpsDarkFlag
          exact pc32_flag_le
        omega
      omega
  | Light =>
    rw [moves_light ht]
    simp only [PossibleMoves.light_moves]
    by_cases hje : (PossibleMoves.jumps_light b).is_empty = true
    · rw [if_pos hje, toList_of_not_can_jump (can_jump_slides_light b)]
      simp only [List.length_append]
      have h1 : (addMoves (PossibleMoves.slides_light b).forward_left_movers
          slideFLSquares MoveDirection.ForwardLeft false).length ≤ 12 :=
        le_trans (le_trans (length_addMoves_le_pc32 slideFL_nodup slideFL_lt32)
          (slFL_le b)) hl12'
      have h2 : (addMoves (PossibleMoves.slides_light b).forward_right_movers
          slideFRSquares MoveDirection.ForwardRight false).length ≤ 12 :=
        le_trans (le_trans (length_addMoves_le_pc32 slideFR_nodup slideFR_lt32)
          (slFR_le b)) hl12'
      have h3 : (addMoves (PossibleMoves.slides_light b).backward_left_movers
          slideBLSquares MoveDirection.BackwardLeft false).length ≤ 12 :=
        le_trans (le_trans (length_addMoves_le_pc32 slideBL_nodup slideBL_lt32)
          (slBL_le b)) hl12'
      have h4 : (addMoves (PossibleMoves.slides_light b).backward_right_movers
          slideBRSquares MoveDirection.BackwardRight false).length ≤ 12 :=
        le_trans (le_trans (length_addMoves_le_pc32 slideBR_nodup slideBR_lt32)
          (slBR_le b)) hl12'
      omega
    · have hcj : (PossibleMoves.jumps_light b).can_jump = true := by
        rw [can_jump_jumps_light]
        intro hall
        exact hje ((is_empty_jumps_light b).mpr hall)
      rw [if_neg hje, toList_of_can_jump hcj]
      simp only [List.length_append]
      have h1 : (addMoves (PossibleMoves.jumps_light b).forward_left_movers
          jumpFLSquares MoveDirection.ForwardLeft true).length ≤ 12 :=
        le_trans (le_trans (length_addMoves_le_pc32 jumpFL_nodup jumpFL_lt32)
          (jlFL_le b)) hl12'
      have h2 : (addMoves (PossibleMoves.jumps_light b).forward_right_movers
          jumpFRSquares MoveDirection.ForwardRight true).length ≤ 12 :=
        le_trans (le_trans (length_addMoves_le_pc32 jumpFR_nodup jumpFR_lt32)
          (jlFR_le b)) hl12'
      have h3 : (addMoves (PossibleMoves.jumps_light b).backward_left_movers
          jumpBLSquares MoveDirection.BackwardLeft true).length ≤ 12 :=
        le_trans (le_trans (length_addMoves_le_pc32 jumpBL_nodup jumpBL_lt32)
          (jlBL_le b)) hl12'
      have h4 : (addMoves (PossibleMoves.jumps_light b).backward_right_movers
          jumpBRSquares MoveDirection.BackwardRight true).length ≤ 13 := by
        refine le_trans (length_addMoves_le_pc32 jumpBR_nodup jumpBR_lt32) ?_
        refine le_trans (pc32_or_le (jumpsLightBR b) (jumpsLightFlag b)) ?_
        have hbr := le_trans (jlBR_le b) hl12'
        have hflag : pc32 (jumpsLightFlag b) ≤ 1 := by
          unfold jumpsLightFlag
          exact pc32_flag_le
        omega
      omega

/-- Witness for claim C10 at the starting position. -/
theorem C10_iter_buffer_witness :
    (movesList CheckersBitBoard.starting_position).length < 50 :=
  C10_iter_buffer CheckersBitBoard.starting_position (by decide)

/-! ### Claim C3 -/

theorem contains_slides_iff {p : PossibleMoves} {m : Move} (hm : m < 256)
    (hcj : p.can_jump = false)
    (hfl : ∀ i, p.forward_left_movers.testBit i = true → i ∈ slideFLSquares)
    (hfr : ∀ i, p.forward_right_movers.testBit i = true → i ∈ slideFRSquares)
    (hbl : ∀ i, p.backward_left_movers.testBit i = true → i ∈ slideBLSquares)
    (hbr : ∀ i, p.backward_right_movers.testBit i = true → i ∈ slideBRSquares) :
    p.contains m = true ↔ m ∈ p.toList := by
  cases hj : m.is_jump with
  | true =>
    have hc : p.contains m = false := by
      unfold PossibleMoves.contains
      rw [hj, hcj]
      rfl
    rw [hc]
    constructor
    · intro h
      exact Bool.noConfusion h
    · intro hmem
      have hs := all_slide_toList hcj m hmem
      rw [hj] at hs
      exact Bool.noConfusion hs
  | false =>
    cases hd : m.direction with
    | ForwardLeft =>
      have hc : p.contains m = ((p.forward_left_movers >>> m.start) &&& 1 == 1) := by
        unfold PossibleMoves.contains
        rw [hj, hcj, hd]
        rfl
      rw [hc, bit_test_eq, toList_of_not_can_jump hcj]
      constructor
      · intro hbit
        have hsmem := hfl m.start hbit
        have henc : m = Move.new m.start MoveDirection.ForwardLeft false := by
          have h0 := move_encode_complete hm
          rw [hd, hj] at h0
          exact h0.symm
        simp only [List.mem_append]
        exact Or.inl (Or.inl (Or.inl (mem_addMoves.mpr ⟨m.start, hsmem, hbit, henc⟩)))
      · intro hmem
        simp only [List.mem_append] at hmem
        rcases hmem with ((h1 | h1) | h1) | h1
        · rw [mem_addMoves] at h1
          obtain ⟨sq, hsmem2, hbit2, rfl⟩ := h1
          rw [(move_decode (slideFL_lt32 sq hsmem2) MoveDirection.ForwardLeft false).1]
          exact hbit2
        · rw [mem_addMoves] at h1
          obtain ⟨sq, hsmem2, hbit2, rfl⟩ := h1
          have hdd := (move_decode (slideFR_lt32 sq hsmem2) MoveDirection.ForwardRight false).2.1
          exact MoveDirection.noConfusion (hdd.symm.trans hd)
        · rw [mem_addMoves] at h1
          obtain ⟨sq, hsmem2, hbit2, rfl⟩ := h1
          have hdd := (move_decode (slideBL_lt32 sq hsmem2) MoveDirection.BackwardLeft false).2.1
          exact MoveDirection.noConfusion (hdd.symm.trans hd)
        · rw [mem_addMoves] at h1
          obtain ⟨sq, hsmem2, hbit2, rfl⟩ := h1
          have hdd := (move_decode (slideBR_lt32 sq hsmem2) MoveDirection.BackwardRight false).2.1
          exact MoveDirection.noConfusion (hdd.symm.trans hd)
    | ForwardRight =>
      have hc : p.contains m = ((p.forward_right_movers >>> m.start) &&& 1 == 1) := by
        unfold PossibleMoves.contains
        rw [hj, hcj, hd]
        rfl
      rw [hc, bit_test_eq, toList_of_not_can_jump hcj]
      constructor
      · intro hbit
        have hsmem := hfr m.start hbit
        have henc : m = Move.new m.start MoveDirection.ForwardRight false := by
          have h0 := move_encode_complete hm
          rw [hd, hj] at h0
          exact h0.symm
        simp only [List.mem_append]
        exact Or.inl (Or.inl (Or.inr (mem_addMoves.mpr ⟨m.start, hsmem, hbit, henc⟩)))
      · intro hmem
        simp only [List.mem_append] at hmem
        rcases hmem with ((h1 | h1) | h1) | h1
        · rw [mem_addMoves] at h1
          obtain ⟨sq, hsmem2, hbit2, rfl⟩ := h1
          have hdd := (move_decode (slideFL_lt32 sq hsmem2) MoveDirection.ForwardLeft false).2.1
          exact MoveDirection.noConfusion (hdd.symm.trans hd)
        · rw [mem_addMoves] at h1
          obtain ⟨sq, hsmem2, hbit2, rfl⟩ := h1
          rw [(move_decode (slideFR_lt32 sq hsmem2) MoveDirection.ForwardRight false).1]
          exact hbit2
        · rw [mem_addMoves] at h1
          obtain ⟨sq, hsmem2, hbit2, rfl⟩ := h1
          have hdd := (move_decode (slideBL_lt32 sq hsmem2) MoveDirection.BackwardLeft false).2.1
          exact MoveDirection.noConfusion (hdd.symm.trans hd)
        · rw [mem_addMoves] at h1
          obtain ⟨sq, hsmem2, hbit2, rfl⟩ := h1
          have hdd := (move_decode (slideBR_lt32 sq hsmem2) MoveDirection.BackwardRight false).2.1
          exact MoveDirection.noConfusion (hdd.symm.trans hd)
    | BackwardLeft =>
      have hc : p.contains m = ((p.backward_left_movers >>> m.start) &&& 1 == 1) := by
        unfold PossibleMoves.contains
        rw [hj, hcj, hd]
        rfl
      rw [hc, bit_test_eq, toList_of_not_can_jump hcj]
      constructor
      · intro hbit
        have hsmem := hbl m.start hbit
        have henc : m = Move.new m.start MoveDirection.BackwardLeft false := by
          have h0 := move_encode_complete hm
          rw [hd, hj] at h0
          exact h0.symm
        simp only [List.mem_append]
        exact Or.inl (Or.inr (mem_addMoves.mpr ⟨m.start, hsmem, hbit, henc⟩))
      · intro hmem
        simp only [List.mem_append] at hmem
        rcases hmem with ((h1 | h1) | h1) | h1
        · rw [mem_addMoves] at h1
          obtain ⟨sq, hsmem2, hbit2, rfl⟩ := h1
          have hdd := (move_decode (slideFL_lt32 sq hsmem2) MoveDirection.ForwardLeft false).2.1
          exact MoveDirection.noConfusion (hdd.symm.trans hd)
        · rw [mem_addMoves] at h1
          obtain ⟨sq, hsmem2, hbit2, rfl⟩ := h1
          have hdd := (move_decode (slideFR_lt32 sq hsmem2) MoveDirection.ForwardRight false).2.1
          exact MoveDirection.noConfusion (hdd.symm.trans hd)
        · rw [mem_addMoves] at h1
          obtain ⟨sq, hsmem2, hbit2, rfl⟩ := h1
          rw [(move_decode (slideBL_lt32 sq hsmem2) MoveDirection.BackwardLeft false).1]
          exact hbit2
        · rw [mem_addMoves] at h1
          obtain ⟨sq, hsmem2, hbit2, rfl⟩ := h1
          have hdd := (move_decode (slideBR_lt32 sq hsmem2) MoveDirection.BackwardRight false).2.1
          exact MoveDirection.noConfusion (hdd.symm.trans hd)
    | BackwardRight =>
      have hc : p.contains m = ((p.backward_right_movers >>> m.start) &&& 1 == 1) := by
        unfold PossibleMoves.contains
        rw [hj, hcj, hd]
        rfl
      rw [hc, bit_test_eq, toList_of_not_can_jump hcj]
      constructor
      · intro hbit
        have hsmem := hbr m.start hbit
        have henc : m = Move.new m.start MoveDirection.BackwardRight false := by
          have h0 := move_encode_complete hm
          rw [hd, hj] at h0
          exact h0.symm
        simp only [List.mem_append]
        exact Or.inr (mem_addMoves.mpr ⟨m.start, hsmem, hbit, henc⟩)
      · intro hmem
        simp only [List.mem_append] at hmem
        rcases hmem with ((h1 | h1) | h1) | h1
        · rw [mem_addMoves] at h1
          obtain ⟨sq, hsmem2, hbit2, rfl⟩ := h1
          have hdd := (move_decode (slideFL_lt32 sq hsmem2) MoveDirection.ForwardLeft false).2.1
          exact MoveDirection.noConfusion (hdd.symm.trans hd)
        · rw [mem_addMoves] at h1
          obtain ⟨sq, hsmem2, hbit2, rfl⟩ := h1
          have hdd := (move_decode (slideFR_lt32 sq hsmem2) MoveDirection.ForwardRight false).2.1
          exact MoveDirection.noConfusion (hdd.symm.trans hd)
        · rw [mem_addMoves] at h1
          obtain ⟨sq, hsmem2, hbit2, rfl⟩ := h1
          have hdd := (move_decode (slideBL_lt32 sq hsmem2) MoveDirection.BackwardLeft false).2.1
          exact MoveDirection.noConfusion (hdd.symm.trans hd)
        · rw [mem_addMoves] at h1
          obtain ⟨sq, hsmem2, hbit2, rfl⟩ := h1
          rw [(move_decode (slideBR_lt32 sq hsmem2) MoveDirection.BackwardRight false).1]
          exact hbit2

theorem contains_jumps_iff {p : PossibleMoves} {m : Move} (hm : m < 256)
    (hcj : p.can_jump = true)
    (hfl : ∀ i, p.forward_left_movers.testBit i = true → i ∈ jumpFLSquares)
    (hfr : ∀ i, p.forward_right_movers.testBit i = true → i ∈ jumpFRSquares)
    (hbl : ∀ i, p.backward_left_movers.testBit i = true → i ∈ jumpBLSquares)
    (hbr : ∀ i, p.backward_right_movers.testBit i = true →
      (i ∈ jumpBRSquares ∨ i = 1)) :
    p.contains m = true ↔
      (m ∈ p.toList ∨ m = Move.new 1 MoveDirection.BackwardRight true) := by
  cases hj : m.is_jump with
  | false =>
    have hc : p.contains m = false := by
      unfold PossibleMoves.contains
      rw [hj, hcj]
      rfl
    rw [hc]
    constructor
    · intro h
      exact Bool.noConfusion h
    · intro hor
      rcases hor with hmem | heq
      · have hs := all_jump_toList hcj m hmem
        rw [hj] at hs
        exact Bool.noConfusion hs
      · have hdd := (move_decode (show (1 : Nat) < 32 by norm_num)
          MoveDirection.BackwardRight true).2.2
        rw [← heq, hj] at hdd
        exact Bool.noConfusion hdd
  | true =>
    cases hd : m.direction with
    | ForwardLeft =>
      have hc : p.contains m = ((p.forward_left_movers >>> m.start) &&& 1 == 1) := by
        unfold PossibleMoves.contains
        rw [hj, hcj, hd]
        rfl
      rw [hc, bit_test_eq, toList_of_can_jump hcj]
      constructor
      · intro hbit
        have hsmem := hfl m.start hbit
        have henc : m = Move.new m.start MoveDirection.ForwardLeft true := by
          have h0 := move_encode_complete hm
          rw [hd, hj] at h0
          exact h0.symm
        refine Or.inl ?_
        simp only [List.mem_append]
        exact Or.inl (Or.inl (Or.inl (mem_addMoves.mpr ⟨m.start, hsmem, hbit, henc⟩)))
      · intro hor
        rcases hor with hmem | heq
        · simp only [List.mem_append] at hmem
          rcases hmem with ((h1 | h1) | h1) | h1
          · rw [mem_addMoves] at h1
            obtain ⟨sq, hsmem2, hbit2, rfl⟩ := h1
            rw [(move_decode (jumpFL_lt32 sq hsmem2) MoveDirection.ForwardLeft true).1]
            exact hbit2
          · rw [mem_addMoves] at h1
            obtain ⟨sq, hsmem2, hbit2, rfl⟩ := h1
            have hdd := (move_decode (jumpFR_lt32 sq hsmem2) MoveDirection.ForwardRight true).2.1
            exact MoveDirection.noConfusion (hdd.symm.trans hd)
          · rw [mem_addMoves] at h1
            obtain ⟨sq, hsmem2, hbit2, rfl⟩ := h1
            have hdd := (move_decode (jumpBL_lt32 sq hsmem2) MoveDirection.BackwardLeft true).2.1
            exact MoveDirection.noConfusion (hdd.symm.trans hd)
          · rw [mem_addMoves] at h1
            obtain ⟨sq, hsmem2, hbit2, rfl⟩ := h1
            have hdd := (move_decode (jumpBR_lt32 sq hsmem2) MoveDirection.BackwardRight true).2.1
            exact MoveDirection.noConfusion (hdd.symm.trans hd)
        · have hdd := (move_decode (show (1 : Nat) < 32 by norm_num) MoveDirection.BackwardRight true).2.1
          rw [heq] at hd
          exact MoveDirection.noConfusion (hdd.symm.trans hd)
    | ForwardRight =>
      have hc : p.contains m = ((p.forward_right_movers >>> m.start) &&& 1 == 1) := by
        unfold PossibleMoves.contains
        rw [hj, hcj, hd]
        rfl
      rw [hc, bit_test_eq, toList_of_can_jump hcj]
      constructor
      · intro hbit
        have hsmem := hfr m.start hbit
        have henc : m = Move.new m.start MoveDirection.ForwardRight true := by
          have h0 := move_encode_complete hm
          rw [hd, hj] at h0
          exact h0.symm
        refine Or.inl ?_
        simp only [List.mem_append]
        exact Or.inl (Or.inl (Or.inr (mem_addMoves.mpr ⟨m.start, hsmem, hbit, henc⟩)))
      · intro hor
        rcases hor with hmem | heq
        · simp only [List.mem_append] at hmem
          rcases hmem with ((h1 | h1) | h1) | h1
          · rw [mem_addMoves] at h1
            obtain ⟨sq, hsmem2, hbit2, rfl⟩ := h1
            have hdd := (move_decode (jumpFL_lt32 sq hsmem2) MoveDirection.ForwardLeft true).2.1
            exact MoveDirection.noConfusion (hdd.symm.trans hd)
          · rw [mem_addMoves] at h1
            obtain ⟨sq, hsmem2, hbit2, rfl⟩ := h1
            rw [(move_decode (jumpFR_lt32 sq hsmem2) MoveDirection.ForwardRight true).1]
            exact hbit2
          · rw [mem_addMoves] at h1
            obtain ⟨sq, hsmem2, hbit2, rfl⟩ := h1
            have hdd := (move_decode (jumpBL_lt32 sq hsmem2) MoveDirection.BackwardLeft true).2.1
            exact MoveDirection.noConfusion (hdd.symm.trans hd)
          · rw [mem_addMoves] at h1
            obtain ⟨sq, hsmem2, hbit2, rfl⟩ := h1
            have hdd := (move_decode (jumpBR_lt32 sq hsmem2) MoveDirection.BackwardRight true).2.1
            exact MoveDirection.noConfusion (hdd.symm.trans hd)
        · have hdd := (move_decode (show (1 : Nat) < 32 by norm_num) MoveDirection.BackwardRight true).2.1
          rw [heq] at hd
          exact MoveDirection.noConfusion (hdd.symm.trans hd)
    | BackwardLeft =>
      have hc : p.contains m = ((p.backward_left_movers >>> m.start) &&& 1 == 1) := by
        unfold PossibleMoves.contains
        rw [hj, hcj, hd]
        rfl
      rw [hc, bit_test_eq, toList_of_can_jump hcj]
      constructor
      · intro hbit
        have hsmem := hbl m.start hbit
        have henc : m = Move.new m.start MoveDirection.BackwardLeft true := by
          have h0 := move_encode_complete hm
          rw [hd, hj] at h0
          exact h0.symm
        refine Or.inl ?_
        simp only [List.mem_append]
        exact Or.inl (Or.inr (mem_addMoves.mpr ⟨m.start, hsmem, hbit, henc⟩))
      · intro hor
        rcases hor with hmem | heq
        · simp only [List.mem_append] at hmem
          rcases hmem with ((h1 | h1) | h1) | h1
          · rw [mem_addMoves] at h1
            obtain ⟨sq, hsmem2, hbit2, rfl⟩ := h1
            have hdd := (move_decode (jumpFL_lt32 sq hsmem2) MoveDirection.ForwardLeft true).2.1
            exact MoveDirection.noConfusion (hdd.symm.trans hd)
          · rw [mem_addMoves] at h1
            obtain ⟨sq, hsmem2, hbit2, rfl⟩ := h1
            have hdd := (move_decode (jumpFR_lt32 sq hsmem2) MoveDirection.ForwardRight true).2.1
            exact MoveDirection.noConfusion (hdd.symm.trans hd)
          · rw [mem_addMoves] at h1
            obtain ⟨sq, hsmem2, hbit2, rfl⟩ := h1
            rw [(move_decode (jumpBL_lt32 sq hsmem2) MoveDirection.BackwardLeft true).1]
            exact hbit2
          · rw [mem_addMoves] at h1
            obtain ⟨sq, hsmem2, hbit2, rfl⟩ := h1
            have hdd := (move_decode (jumpBR_lt32 sq hsmem2) MoveDirection.BackwardRight true).2.1
            exact MoveDirection.noConfusion (hdd.symm.trans hd)
        · have hdd := (move_decode (show (1 : Nat) < 32 by norm_num) MoveDirection.BackwardRight true).2.1
          rw [heq] at hd
          exact MoveDirection.noConfusion (hdd.symm.trans hd)
    | BackwardRight =>
      have hc : p.contains m = ((p.backward_right_movers >>> m.start) &&& 1 == 1) := by
        unfold PossibleMoves.contains
        rw [hj, hcj, hd]
        rfl
      rw [hc, bit_test_eq, toList_of_can_jump hcj]
      constructor
      · intro hbit
        rcases hbr m.start hbit with hsmem | h1
        · have henc : m = Move.new m.start MoveDirection.BackwardRight true := by
            have h0 := move_encode_complete hm
            rw [hd, hj] at h0
            exact h0.symm
          refine Or.inl ?_
          simp only [List.mem_append]
          exact Or.inr (mem_addMoves.mpr ⟨m.start, hsmem, hbit, henc⟩)
        · have henc : m = Move.new 1 MoveDirection.BackwardRight true := by
            have h0 := move_encode_complete hm
            rw [hd, hj, h1] at h0
            exact h0.symm
          exact Or.inr henc
      · intro hor
        rcases hor with hmem | heq
        · simp only [List.mem_append] at hmem
          rcases hmem with ((h1 | h1) | h1) | h1
          · rw [mem_addMoves] at h1
            obtain ⟨sq, hsmem2, hbit2, rfl⟩ := h1
            have hdd := (move_decode (jumpFL_lt32 sq hsmem2) MoveDirection.ForwardLeft true).2.1
            exact MoveDirection.noConfusion (hdd.symm.trans hd)
          · rw [mem_addMoves] at h1
            obtain ⟨sq, hsmem2, hbit2, rfl⟩ := h1
            have hdd := (move_decode (jumpFR_lt32 sq hsmem2) MoveDirection.ForwardRight true).2.1
            exact MoveDirection.noConfusion (hdd.symm.trans hd)
          · rw [mem_addMoves] at h1
            obtain ⟨sq, hsmem2, hbit2, rfl⟩ := h1
            have hdd := (move_decode (jumpBL_lt32 sq hsmem2) MoveDirection.BackwardLeft true).2.1
            exact MoveDirection.noConfusion (hdd.symm.trans hd)
          · rw [mem_addMoves] at h1
            obtain ⟨sq, hsmem2, hbit2, rfl⟩ := h1
            rw [(move_decode (jumpBR_lt32 sq hsmem2) MoveDirection.BackwardRight true).1]
            exact hbit2
        · rw [heq, (move_decode (show (1 : Nat) < 32 by norm_num) MoveDirection.BackwardRight true).1]
          exact (can_jump_iff p).mp hcj

/-- A board with a dark man on square 0 and a light man on square 7: the
dark man can jump forward-left, so the `can_jump` flag (bit 1 of
`backward_right_movers`) is set. -/
def C3board : CheckersBitBoard :=
  ⟨(1 <<< 0) ||| (1 <<< 7), 1, 0, PieceColor.Dark⟩

/-- Claim C3, counterexample to the parenthetical: on `C3board` the
`can_jump` flag stored in bit 1 of `backward_right_movers` makes
`contains` accept the backward-right jump from square 1 even though
iteration never yields that move. -/
theorem C3_counterexample :
    (PossibleMoves.moves C3board).contains
        (Move.new 1 MoveDirection.BackwardRight true) = true ∧
      Move.new 1 MoveDirection.BackwardRight true ∉ movesList C3board := by
  decide

/-- Claim C3 (amended): `contains` agrees with iteration up to the
`can_jump` flag bit: `PossibleMoves::moves(b).contains(m)` holds iff
iteration yields `m`, or the flag is set and `m` is the phantom
backward-right jump from square 1 (the encoding whose bit is the flag
itself). -/
theorem C3_contains_amended (b : CheckersBitBoard) (m : Move) (hm : m < 256) :
    (PossibleMoves.moves b).contains m = true ↔
      (m ∈ movesList b ∨
        ((PossibleMoves.moves b).can_jump = true ∧
          m = Move.new 1 MoveDirection.BackwardRight true)) := by
  unfold movesList
  cases ht : b.turn with
  | Dark =>
    rw [moves_dark ht]
    simp only [PossibleMoves.dark_moves]
    by_cases he : (PossibleMoves.jumps_dark b).is_empty = true
    · rw [if_pos he]
      have hcj := can_jump_slides_dark b
      have hfl : ∀ i, (PossibleMoves.slides_dark b).forward_left_movers.testBit i = true →
          i ∈ slideFLSquares := by
        intro i h
        have h2 : (slidesDarkFL b).testBit i = true := h
        unfold slidesDarkFL at h2
        have hmask := mask_bit_of_and h2
        exact slideFL_mask_sub i (testBit_lt32 (by norm_num [SLIDE_FL_MASK]) hmask) hmask
      have hfr : ∀ i, (PossibleMoves.slides_dark b).forward_right_movers.testBit i = true →
          i ∈ slideFRSquares := by
        intro i h
        have h2 : (slidesDarkFR b).testBit i = true := h
        unfold slidesDarkFR at h2
        have hmask := mask_bit_of_and h2
        exact slideFR_mask_sub i (testBit_lt32 (by norm_num [SLIDE_FR_MASK]) hmask) hmask
      have hbl : ∀ i, (PossibleMoves.slides_dark b).backward_left_movers.testBit i = true →
          i ∈ slideBLSquares := by
        intro i h
        have h2 : (slidesDarkBL b).testBit i = true := h
        unfold slidesDarkBL at h2
        have hmask := mask_bit_of_and (testBit_of_ite_zero h2)
        exact slideBL_mask_sub i (testBit_lt32 (by norm_num [SLIDE_BL_MASK]) hmask) hmask
      have hbr : ∀ i, (PossibleMoves.slides_dark b).backward_right_movers.testBit i = true →
          i ∈ slideBRSquares := by
        intro i h
        have h2 : (slidesDarkBR b).testBit i = true := h
        unfold slidesDarkBR at h2
        have hmask := mask_bit_of_and (testBit_of_ite_zero h2)
        exact slideBR_mask_sub i (testBit_lt32 (by norm_num [SLIDE_BR_MASK]) hmask) hmask
      rw [contains_slides_iff hm hcj hfl hfr hbl hbr]
      constructor
      · exact fun h1 => Or.inl h1
      · rintro (h1 | ⟨hc2, -⟩)
        · exact h1
        · rw [hcj] at hc2
          exact Bool.noConfusion hc2
    · rw [if_neg he]
      have hall : ¬ (jumpsDarkFL b = 0 ∧ jumpsDarkFR b = 0 ∧ jumpsDarkBL b = 0 ∧
          jumpsDarkBR b = 0) := fun hz => he ((is_empty_jumps_dark b).mpr hz)
      have hcj : (PossibleMoves.jumps_dark b).can_jump = true :=
        (can_jump_jumps_dark b).mpr hall
      have hfl : ∀ i, (PossibleMoves.jumps_dark b).forward_left_movers.testBit i = true →
          i ∈ jumpFLSquares := by
        intro i h
        have h2 : (jumpsDarkFL b).testBit i = true := h
        unfold jumpsDarkFL at h2
        have hmask := mask_bit_of_and h2
        exact jumpFL_mask_sub i (testBit_lt32 (by norm_num [JUMP_FL_MASK]) hmask) hmask
      have hfr : ∀ i, (PossibleMoves.jumps_dark b).forward_right_movers.testBit i = true →
          i ∈ jumpFRSquares := by
        intro i h
        have h2 : (jumpsDarkFR b).testBit i = true := h
        unfold jumpsDarkFR at h2
        have hmask := mask_bit_of_and h2
        exact jumpFR_mask_sub i (testBit_lt32 (by norm_num [JUMP_FR_MASK]) hmask) hmask
      have hbl : ∀ i, (PossibleMoves.jumps_dark b).backward_left_movers.testBit i = true →
          i ∈ jumpBLSquares := by
        intro i h
        have h2 : (jumpsDarkBL b).testBit i = true := h
        unfold jumpsDarkBL at h2
        have hmask := mask_bit_of_and (testBit_of_ite_zero h2)
        exact jumpBL_mask_sub i (testBit_lt32 (by norm_num [JUMP_BL_MASK]) hmask) hmask
      have hbr : ∀ i, (PossibleMoves.jumps_dark b).backward_right_movers.testBit i = true →
          (i ∈ jumpBRSquares ∨ i = 1) := by
        intro i h
        have h2 : (jumpsDarkBR b ||| jumpsDarkFlag b).testBit i = true := h
        rw [Nat.testBit_or, Bool.or_eq_true] at h2
        rcases h2 with h2 | h2
        · unfold jumpsDarkBR at h2
          have hmask := mask_bit_of_and (testBit_of_ite_zero h2)
          exact Or.inl (jumpBR_mask_sub i (testBit_lt32 (by norm_num [JUMP_BR_MASK]) hmask) hmask)
        · refine Or.inr ?_
          by_contra hne
          rw [jumpsDarkFlag_ne1 b i hne] at h2
          exact Bool.noConfusion h2
      rw [contains_jumps_iff hm hcj hfl hfr hbl hbr]
      constructor
      · rintro (h1 | h1)
        · exact Or.inl h1
        · exact Or.inr ⟨hcj, h1⟩
      · rintro (h1 | ⟨-, h1⟩)
        · exact Or.inl h1
        · exact Or.inr h1
  | Light =>
    rw [moves_light ht]
    simp only [PossibleMoves.light_moves]
    by_cases he : (PossibleMoves.jumps_light b).is_empty = true
    · rw [if_pos he]
      have hcj := can_jump_slides_light b
      have hfl : ∀ i, (PossibleMoves.slides_light b).forward_left_movers.testBit i = true →
          i ∈ slideFLSquares := by
        intro i h
        have h2 : (slidesLightFL b).testBit i = true := h
        unfold slidesLightFL at h2
        have hmask := mask_bit_of_and (testBit_of_ite_zero h2)
        exact slideFL_mask_sub i (testBit_lt32 (by norm_num [SLIDE_FL_MASK]) hmask) hmask
      have hfr : ∀ i, (PossibleMoves.slides_light b).forward_right_movers.testBit i = true →
          i ∈ slideFRSquares := by
        intro i h
        have h2 : (slidesLightFR b).testBit i = true := h
        unfold slidesLightFR at h2
        have hmask := mask_bit_of_and (testBit_of_ite_zero h2)
        exact slideFR_mask_sub i (testBit_lt32 (by norm_num [SLIDE_FR_MASK]) hmask) hmask
      have hbl : ∀ i, (PossibleMoves.slides_light b).backward_left_movers.testBit i = true →
          i ∈ slideBLSquares := by
        intro i h
        have h2 : (slidesLightBL b).testBit i = true := h
        unfold slidesLightBL at h2
        have hmask := mask_bit_of_and h2
        exact slideBL_mask_sub i (testBit_lt32 (by norm_num [SLIDE_BL_MASK]) hmask) hmask
      have hbr : ∀ i, (PossibleMoves.slides_light b).backward_right_movers.testBit i = true →
          i ∈ slideBRSquares := by
        intro i h
        have h2 : (slidesLightBR b).testBit i = true := h
        unfold slidesLightBR at h2
        have hmask := mask_bit_of_and h2
        exact slideBR_mask_sub i (testBit_lt32 (by norm_num [SLIDE_BR_MASK]) hmask) hmask
      rw [contains_slides_iff hm hcj hfl hfr hbl hbr]
      constructor
      · exact fun h1 => Or.inl h1
      · rintro (h1 | ⟨hc2, -⟩)
        · exact h1
        · rw [hcj] at hc2
          exact Bool.noConfusion hc2
    · rw [if_neg he]
      have hall : ¬ (jumpsLightFL b = 0 ∧ jumpsLightFR b = 0 ∧ jumpsLightBL b = 0 ∧
          jumpsLightBR b = 0) := fun hz => he ((is_empty_jumps_light b).mpr hz)
      have hcj : (PossibleMoves.jumps_light b).can_jump = true :=
        (can_jump_jumps_light b).mpr hall
      have hfl : ∀ i, (PossibleMoves.jumps_light b).forward_left_movers.testBit i = true →
          i ∈ jumpFLSquares := by
        intro i h
        have h2 : (jumpsLightFL b).testBit i = true := h
        unfold jumpsLightFL at h2
        have hmask := mask_bit_of_and (testBit_of_ite_zero h2)
        exact jumpFL_mask_sub i (testBit_lt32 (by norm_num [JUMP_FL_MASK]) hmask) hmask
      have hfr : ∀ i, (PossibleMoves.jumps_light b).forward_right_movers.testBit i = true →
          i ∈ jumpFRSquares := by
        intro i h
        have h2 : (jumpsLightFR b).testBit i = true := h
        unfold jumpsLightFR at h2
        have hmask := mask_bit_of_and (testBit_of_ite_zero h2)
        exact jumpFR_mask_sub i (testBit_lt32 (by norm_num [JUMP_FR_MASK]) hmask) hmask
      have hbl : ∀ i, (PossibleMoves.jumps_light b).backward_left_movers.testBit i = true →
          i ∈ jumpBLSquares := by
        intro i h
        have h2 : (jumpsLightBL b).testBit i = true := h
        unfold jumpsLightBL at h2
        have hmask := mask_bit_of_and h2
        exact jumpBL_mask_sub i (testBit_lt32 (by norm_num [JUMP_BL_MASK]) hmask) hmask
      have hbr : ∀ i, (PossibleMoves.jumps_light b).backward_right_movers.testBit i = true →
          (i ∈ jumpBRSquares ∨ i = 1) := by
        intro i h
        have h2 : (jumpsLightBR b ||| jumpsLightFlag b).testBit i = true := h
        rw [Nat.testBit_or, Bool.or_eq_true] at h2
        rcases h2 with h2 | h2
        · unfold jumpsLightBR at h2
          have hmask := mask_bit_of_and h2
          exact Or.inl (jumpBR_mask_sub i (testBit_lt32 (by norm_num [JUMP_BR_MASK]) hmask) hmask)
        · refine Or.inr ?_
          by_contra hne
          rw [jumpsLightFlag_ne1 b i hne] at h2
          exact Bool.noConfusion h2
      rw [contains_jumps_iff hm hcj hfl hfr hbl hbr]
      constructor
      · rintro (h1 | h1)
        · exact Or.inl h1
        · exact Or.inr ⟨hcj, h1⟩
      · rintro (h1 | ⟨-, h1⟩)
        · exact Or.inl h1
        · exact Or.inr h1

theorem C3_contains_amended_witness :
    Move.new 1 MoveDirection.BackwardRight true < 256 ∧
    ((PossibleMoves.moves C3board).contains
        (Move.new 1 MoveDirection.BackwardRight true) = true ↔
      (Move.new 1 MoveDirection.BackwardRight true ∈ movesList C3board ∨
        ((PossibleMoves.moves C3board).can_jump = true ∧
          Move.new 1 MoveDirection.BackwardRight true =
            Move.new 1 MoveDirection.BackwardRight true))) :=
  ⟨by decide, C3_contains_amended C3board
    (Move.new 1 MoveDirection.BackwardRight true) (by decide)⟩
